import Mathlib

/-!
# Verification of `provisioning/baremetal_secrets.go`

A shallow embedding of the secret provisioners of the cluster baremetal
operator.  Go `string` and `[]byte` values are byte sequences, Go `rune`s are
`Char`s.  The secrets client, the random source and bcrypt are external
collaborators; they are parameters of the model.  A world records the store,
how many random draws and bcrypt calls were made, and the requests sent to
the store, so that "no Create is issued" can be stated.
-/

namespace Provisioning

/-- A Go `string` or `[]byte`: a sequence of bytes. -/
abbrev Bytes := List UInt8

/-- The bytes of a string literal of the source (its UTF-8 encoding). -/
def lit (s : String) : Bytes := s.data.flatMap String.utf8EncodeChar

/-- Go `string(buf)` for `buf []rune`: the UTF-8 encoding of the runes. -/
def runesToString (buf : List Char) : Bytes := buf.flatMap String.utf8EncodeChar

/-! ## Errors -/

/-- The status reasons of API errors that matter here; `Unknown` covers
errors that are no API status at all (random source, bcrypt). -/
inductive Reason where
  | NotFound
  | AlreadyExists
  | Forbidden
  | InternalError
  | Unknown
  deriving DecidableEq, Repr

/-- A Go `error` value that is not nil. -/
structure Err where
  reason : Reason
  message : String
  deriving DecidableEq, Repr

/-- `apierrors.IsNotFound(err)`: false on nil. -/
def IsNotFound (err : Option Err) : Bool :=
  match err with
  | none => false
  | some e => decide (e.reason = Reason.NotFound)

/-! ## Secrets and the store boundary -/

/-- `corev1.Secret`, as far as the source fills it: `ObjectMeta.Name`,
`ObjectMeta.Namespace` and the `StringData` map (the entries of the map
literal, in source order). -/
structure Secret where
  Name : Bytes
  Namespace : Bytes
  StringData : List (Bytes × Bytes)
  deriving DecidableEq, Repr

/-- Value of a key of `StringData`. -/
def Secret.field (s : Secret) (key : Bytes) : Option Bytes :=
  (s.StringData.find? (fun kv => decide (kv.1 = key))).map Prod.snd

/-- The keys of `StringData`. -/
def Secret.keys (s : Secret) : List Bytes := s.StringData.map Prod.fst

/-- A request sent to the secrets store. -/
inductive Request where
  | Get (ns name : Bytes)
  | Create (ns : Bytes) (rec : Secret)
  | Update (ns : Bytes) (rec : Secret)
  | Delete (ns name : Bytes)
  deriving DecidableEq, Repr

/-- Is the request a Create. -/
def Request.isCreate : Request → Bool
  | Request.Create _ _ => true
  | _ => false

/-- Is the request an Update. -/
def Request.isUpdate : Request → Bool
  | Request.Update _ _ => true
  | _ => false

/-- The part of `coreclientv1.SecretsGetter` the source uses, over a store
state `σ`: `client.Secrets(ns).Get(ctx, name, opts)` reads the store and
`client.Secrets(ns).Create(ctx, secret, opts)` may change it. -/
structure SecretsGetter (σ : Type) where
  Get : σ → Bytes → Bytes → Except Err Secret
  Create : σ → Bytes → Secret → σ × Option Err

/-- The external collaborators of a call: the secrets client, the secure
random source (`rand.Int(rand.Reader, max)`, outcome of the k-th draw) and
bcrypt (`bcrypt.GenerateFromPassword(password, cost)`, outcome of the k-th
call, which salts at random). -/
structure Env (σ : Type) where
  client : SecretsGetter σ
  randInt : Nat → Nat → Except Err Nat
  bcrypt : Nat → Bytes → Nat → Except Err Bytes

/-- The state a call runs in. -/
structure World (σ : Type) where
  store : σ
  draws : Nat
  hashes : Nat
  log : List Request

/-- How a Go call ends: it returns, or it panics (index out of range). -/
inductive Outcome (α : Type) where
  | returned (a : α)
  | panicked
  deriving DecidableEq, Repr

/-! ## Constants -/

def baremetalSecretName : Bytes := lit "metal3-mariadb-password"
def baremetalSecretKey : Bytes := lit "password"
def ironicUsernameKey : Bytes := lit "username"
def ironicPasswordKey : Bytes := lit "password"
def ironicHtpasswdKey : Bytes := lit "htpasswd"
def ironicConfigKey : Bytes := lit "auth-config"
def ironicSecretName : Bytes := lit "metal3-ironic-password"
def ironicUsername : Bytes := lit "ironic-user"
def inspectorSecretName : Bytes := lit "metal3-ironic-inspector-password"
def inspectorUsername : Bytes := lit "inspector-user"

/-! ## `generateRandomPassword` -/

/-- The rune table `chars`. -/
def chars : List Char :=
  ("ABCDEFGHIJKLMNOPQRSTUVWXYZ" ++
   "abcdefghijklmnopqrstuvwxyz" ++
   "0123456789").data

/-- The local `length`. -/
def length : Nat := 16

/-- The local `numChars`, `len(chars)`. -/
def numChars : Nat := chars.length

/-- The loop `for i := range buf`, with `n` iterations left at index `i`:
draw `c`, return the error if the draw failed, else `buf[i] = chars[c]`
(a panic when `c` is out of range). -/
def fillBuf {σ : Type} (env : Env σ) :
    Nat → Nat → World σ → List Char → World σ × Outcome (Except Err (List Char))
  | 0, _, w, buf => (w, Outcome.returned (Except.ok buf))
  | n + 1, i, w, buf =>
    let w1 : World σ := { w with draws := w.draws + 1 }
    match env.randInt w.draws numChars with
    | Except.error e => (w1, Outcome.returned (Except.error e))
    | Except.ok c =>
      match chars[c]? with
      | none => (w1, Outcome.panicked)
      | some r => fillBuf env n (i + 1) w1 (buf.set i r)

/-- The function `generateRandomPassword`: the pair `(string, error)`. -/
def generateRandomPassword {σ : Type} (env : Env σ) (w : World σ) :
    World σ × Outcome (Bytes × Option Err) :=
  let buf : List Char := List.replicate length (Char.ofNat 0)
  match fillBuf env length 0 w buf with
  | (w1, Outcome.panicked) => (w1, Outcome.panicked)
  | (w1, Outcome.returned (Except.error e)) => (w1, Outcome.returned ([], some e))
  | (w1, Outcome.returned (Except.ok buf1)) =>
    (w1, Outcome.returned (runesToString buf1, none))

/-! ## `fmt.Sprintf` -/

/-- The text printed for a `%s` verb that has no operand left. -/
def missingOperand : Bytes := lit "%!s(MISSING)"

/-- The `%s` verb of `fmt.Sprintf` on `string` and `[]byte` operands, which
prints the operand's bytes as they are; every other byte of the format is
copied.  No other verb occurs in the formats of the source, and each format
has as many verbs as operands. -/
def Sprintf : Bytes → List Bytes → Bytes
  | [], _ => []
  | [b], _ => [b]
  | b :: c :: rest, args =>
    if b = '%'.toUInt8 ∧ c = 's'.toUInt8 then
      match args with
      | [] => missingOperand ++ Sprintf rest []
      | a :: others => a ++ Sprintf rest others
    else b :: Sprintf (c :: rest) args

/-- The format of the `auth-config` field, a raw string literal of four
lines. -/
def authConfigFormat : Bytes :=
  lit "[%s]\nauth_type = http_basic\nusername = %s\npassword = %s\n"

/-! ## The provisioners -/

/-- The `err` of `_, err := client.Secrets(ns).Get(...)`. -/
def getErr (r : Except Err Secret) : Option Err :=
  match r with
  | Except.ok _ => none
  | Except.error e => some e

/-- The record `CreateMariadbPasswordSecret` builds from the password. -/
def mariadbRecord (targetNamespace password : Bytes) : Secret :=
  { Name := baremetalSecretName
    Namespace := targetNamespace
    StringData := [(baremetalSecretKey, password)] }

/-- The function `CreateMariadbPasswordSecret`. -/
def CreateMariadbPasswordSecret {σ : Type} (env : Env σ) (targetNamespace : Bytes)
    (w : World σ) : World σ × Outcome (Option Err) :=
  let err := getErr (env.client.Get w.store targetNamespace baremetalSecretName)
  let w1 : World σ :=
    { w with log := w.log ++ [Request.Get targetNamespace baremetalSecretName] }
  if !IsNotFound err then (w1, Outcome.returned err)
  else
    match generateRandomPassword env w1 with
    | (w2, Outcome.panicked) => (w2, Outcome.panicked)
    | (w2, Outcome.returned (_, some e)) => (w2, Outcome.returned (some e))
    | (w2, Outcome.returned (password, none)) =>
      let secret := mariadbRecord targetNamespace password
      let created := env.client.Create w2.store targetNamespace secret
      ({ w2 with store := created.1,
                 log := w2.log ++ [Request.Create targetNamespace secret] },
       Outcome.returned created.2)

/-- The record `createIronicSecret` builds from the password and the hash
whose version byte was rewritten. -/
def ironicRecord (targetNamespace name username configSection password hash : Bytes) :
    Secret :=
  { Name := name
    Namespace := targetNamespace
    StringData :=
      [ (ironicUsernameKey, username),
        (ironicPasswordKey, password),
        (ironicHtpasswdKey, Sprintf (lit "%s:%s") [username, hash]),
        (ironicConfigKey, Sprintf authConfigFormat [configSection, username, password]) ] }

/-- The function `createIronicSecret`.  `hash[2] = 'y'` panics on a hash
shorter than three bytes. -/
def createIronicSecret {σ : Type} (env : Env σ) (targetNamespace name username
    configSection : Bytes) (w : World σ) : World σ × Outcome (Option Err) :=
  let err := getErr (env.client.Get w.store targetNamespace name)
  let w1 : World σ := { w with log := w.log ++ [Request.Get targetNamespace name] }
  if !IsNotFound err then (w1, Outcome.returned err)
  else
    match generateRandomPassword env w1 with
    | (w2, Outcome.panicked) => (w2, Outcome.panicked)
    | (w2, Outcome.returned (_, some e)) => (w2, Outcome.returned (some e))
    | (w2, Outcome.returned (password, none)) =>
      let w3 : World σ := { w2 with hashes := w2.hashes + 1 }
      match env.bcrypt w2.hashes password 5 with
      | Except.error e => (w3, Outcome.returned (some e))
      | Except.ok hash =>
        if hash.length ≤ 2 then (w3, Outcome.panicked)
        else
          let hash := hash.set 2 'y'.toUInt8
          let secret := ironicRecord targetNamespace name username configSection password hash
          let created := env.client.Create w3.store targetNamespace secret
          ({ w3 with store := created.1,
                     log := w3.log ++ [Request.Create targetNamespace secret] },
           Outcome.returned created.2)

/-- The function `CreateIronicPasswordSecret`. -/
def CreateIronicPasswordSecret {σ : Type} (env : Env σ) (targetNamespace : Bytes)
    (w : World σ) : World σ × Outcome (Option Err) :=
  createIronicSecret env targetNamespace ironicSecretName ironicUsername (lit "ironic") w

/-- The function `CreateInspectorPasswordSecret`. -/
def CreateInspectorPasswordSecret {σ : Type} (env : Env σ) (targetNamespace : Bytes)
    (w : World σ) : World σ × Outcome (Option Err) :=
  createIronicSecret env targetNamespace inspectorSecretName inspectorUsername
    (lit "inspector") w

/-! ## A model store -/

/-- A store of secrets: the records held, each under its namespace; the key
of an entry is its namespace and the record's name. -/
abbrev MapStore := List (Bytes × Secret)

/-- The record held under a namespace and name. -/
def MapStore.lookup (s : MapStore) (ns name : Bytes) : Option Secret :=
  (s.find? (fun e => decide (e.1 = ns ∧ e.2.Name = name))).map Prod.snd

/-- How many records a store holds under a namespace and name. -/
def MapStore.count (s : MapStore) (ns name : Bytes) : Nat :=
  s.countP (fun e => decide (e.1 = ns ∧ e.2.Name = name))

/-- The error the model client answers a Get of an absent key with. -/
def notFoundErr : Err := { reason := Reason.NotFound, message := "not found" }

/-- The error the model client answers a Create of a present key with. -/
def alreadyExistsErr : Err := { reason := Reason.AlreadyExists, message := "already exists" }

/-- The model client: Get returns not-found exactly for absent keys, Create
inserts an absent key and succeeds, and answers a present key with an
already-exists conflict that leaves the store as it is. -/
def mapClient : SecretsGetter MapStore where
  Get := fun s ns name =>
    match s.lookup ns name with
    | some r => Except.ok r
    | none => Except.error notFoundErr
  Create := fun s ns rec =>
    match s.lookup ns rec.Name with
    | some _ => (s, some alreadyExistsErr)
    | none => (s ++ [(ns, rec)], none)

/-! ## The body of a provisioner in two steps

Two callers race when each has done its Get before either does its Create.
To run that interleaving the body of a provisioner is cut at its Create
call: `prepare` is the body up to that call, `commit` is the call and the
`return err` after it. -/

/-- Where a body stands before its Create call: it has already ended, or it
is about to submit a record. -/
inductive Staged where
  | done (r : Outcome (Option Err))
  | submit (rec : Secret)
  deriving DecidableEq, Repr

/-- The body of `CreateMariadbPasswordSecret` up to its Create call. -/
def mariadbPrepare {σ : Type} (env : Env σ) (targetNamespace : Bytes) (w : World σ) :
    World σ × Staged :=
  let err := getErr (env.client.Get w.store targetNamespace baremetalSecretName)
  let w1 : World σ :=
    { w with log := w.log ++ [Request.Get targetNamespace baremetalSecretName] }
  if !IsNotFound err then (w1, Staged.done (Outcome.returned err))
  else
    match generateRandomPassword env w1 with
    | (w2, Outcome.panicked) => (w2, Staged.done Outcome.panicked)
    | (w2, Outcome.returned (_, some e)) => (w2, Staged.done (Outcome.returned (some e)))
    | (w2, Outcome.returned (password, none)) =>
      (w2, Staged.submit (mariadbRecord targetNamespace password))

/-- The body of `createIronicSecret` up to its Create call. -/
def ironicPrepare {σ : Type} (name username configSection : Bytes) (env : Env σ)
    (targetNamespace : Bytes) (w : World σ) : World σ × Staged :=
  let err := getErr (env.client.Get w.store targetNamespace name)
  let w1 : World σ := { w with log := w.log ++ [Request.Get targetNamespace name] }
  if !IsNotFound err then (w1, Staged.done (Outcome.returned err))
  else
    match generateRandomPassword env w1 with
    | (w2, Outcome.panicked) => (w2, Staged.done Outcome.panicked)
    | (w2, Outcome.returned (_, some e)) => (w2, Staged.done (Outcome.returned (some e)))
    | (w2, Outcome.returned (password, none)) =>
      let w3 : World σ := { w2 with hashes := w2.hashes + 1 }
      match env.bcrypt w2.hashes password 5 with
      | Except.error e => (w3, Staged.done (Outcome.returned (some e)))
      | Except.ok hash =>
        if hash.length ≤ 2 then (w3, Staged.done Outcome.panicked)
        else
          (w3, Staged.submit (ironicRecord targetNamespace name username configSection
            password (hash.set 2 'y'.toUInt8)))

/-- The Create call of a body and the `return err` after it. -/
def commit {σ : Type} (env : Env σ) (targetNamespace : Bytes) (w : World σ) :
    Staged → World σ × Outcome (Option Err)
  | Staged.done r => (w, r)
  | Staged.submit secret =>
    let created := env.client.Create w.store targetNamespace secret
    ({ w with store := created.1,
              log := w.log ++ [Request.Create targetNamespace secret] },
     Outcome.returned created.2)

/-- The request `commit` sends. -/
def Staged.requests (targetNamespace : Bytes) : Staged → List Request
  | Staged.done _ => []
  | Staged.submit secret => [Request.Create targetNamespace secret]

/-- The result of two racing callers A and B. -/
structure RaceResult (σ : Type) where
  world : World σ
  recA : Staged
  recB : Staged
  retA : Outcome (Option Err)
  retB : Outcome (Option Err)

/-- Two callers of one provisioner in the interleaving Get of A, Get of B,
Create of A, Create of B. -/
def race {σ : Type} (prepare : Env σ → Bytes → World σ → World σ × Staged)
    (env : Env σ) (targetNamespace : Bytes) (w : World σ) : RaceResult σ :=
  let a := prepare env targetNamespace w
  let b := prepare env targetNamespace a.1
  let ra := commit env targetNamespace b.1 a.2
  let rb := commit env targetNamespace ra.1 b.2
  { world := rb.1, recA := a.2, recB := b.2, retA := ra.2, retB := rb.2 }

/-! ## The three provisioners -/

/-- A provisioner: the name of its secret, the keys of the record it
writes, the function itself and its body up to the Create call. -/
structure Provisioner (σ : Type) where
  name : Bytes
  keys : List Bytes
  run : Env σ → Bytes → World σ → World σ × Outcome (Option Err)
  prepare : Env σ → Bytes → World σ → World σ × Staged

/-- The mariadb-password provisioner. -/
def mariadb {σ : Type} : Provisioner σ :=
  { name := baremetalSecretName
    keys := [lit "password"]
    run := CreateMariadbPasswordSecret
    prepare := mariadbPrepare }

/-- The ironic-password provisioner. -/
def ironic {σ : Type} : Provisioner σ :=
  { name := ironicSecretName
    keys := [lit "username", lit "password", lit "htpasswd", lit "auth-config"]
    run := CreateIronicPasswordSecret
    prepare := ironicPrepare ironicSecretName ironicUsername (lit "ironic") }

/-- The inspector-password provisioner. -/
def inspector {σ : Type} : Provisioner σ :=
  { name := inspectorSecretName
    keys := [lit "username", lit "password", lit "htpasswd", lit "auth-config"]
    run := CreateInspectorPasswordSecret
    prepare := ironicPrepare inspectorSecretName inspectorUsername (lit "inspector") }

/-- The three provisioners of the source. -/
def provisioners {σ : Type} : List (Provisioner σ) := [mariadb, ironic, inspector]

/-- The world after a call whose only effect was its Get request. -/
def afterGet {σ : Type} (w : World σ) (ns name : Bytes) : World σ :=
  { w with log := w.log ++ [Request.Get ns name] }

/-! ## Concrete collaborators -/

/-- The namespace of the examples. -/
def sampleNamespace : Bytes := lit "openshift-machine-api"

/-- A random source that never fails; its k-th draw is `7 k mod 62`. -/
def sampleRandInt : Nat → Nat → Except Err Nat := fun k _ => Except.ok (k * 7 % 62)

/-- A hash of the form bcrypt emits at cost 5, with version byte `a`. -/
def sampleHash : Bytes := lit "$2a$05$abcdefghijklmnopqrstuuABCDEFGHIJKLMNOPQRSTUVWXYZ01234"

/-- A bcrypt that never fails and answers every call with `sampleHash`. -/
def sampleBcrypt : Nat → Bytes → Nat → Except Err Bytes := fun _ _ _ => Except.ok sampleHash

/-- The password the sample random source yields on its first 16 draws. -/
def samplePassword : Bytes := lit "AHOVcjqx4BIPWdkr"

/-- The sample hash with its version byte rewritten. -/
def sampleHashY : Bytes := lit "$2y$05$abcdefghijklmnopqrstuuABCDEFGHIJKLMNOPQRSTUVWXYZ01234"

/-- The record the ironic provisioner writes with the sample collaborators
on first use. -/
def sampleIronicSecret : Secret :=
  { Name := lit "metal3-ironic-password"
    Namespace := sampleNamespace
    StringData :=
      [ (lit "username", lit "ironic-user"),
        (lit "password", samplePassword),
        (lit "htpasswd", lit "ironic-user:" ++ sampleHashY),
        (lit "auth-config",
          lit "[ironic]\nauth_type = http_basic\nusername = ironic-user\npassword = " ++
            samplePassword ++ lit "\n") ] }

/-- What follows the prefix `$2a$05$` in the sample hash: salt and digest. -/
def sampleHashRest : Bytes := lit "abcdefghijklmnopqrstuuABCDEFGHIJKLMNOPQRSTUVWXYZ01234"

/-- The model client with the sample random source and bcrypt. -/
def sampleEnv : Env MapStore :=
  { client := mapClient, randInt := sampleRandInt, bcrypt := sampleBcrypt }

/-- A world with an empty store in which nothing has happened yet. -/
def emptyWorld : World MapStore := { store := [], draws := 0, hashes := 0, log := [] }

/-- A mariadb secret written earlier. -/
def oldSecret : Secret :=
  { Name := baremetalSecretName
    Namespace := sampleNamespace
    StringData := [(lit "password", lit "0ldPassw0rd0ldPw")] }

/-- A world whose store already holds the mariadb secret. -/
def provisionedWorld : World MapStore :=
  { store := [(sampleNamespace, oldSecret)], draws := 0, hashes := 0, log := [] }

/-- A client whose every Get is refused. -/
def forbiddenClient : SecretsGetter MapStore :=
  { Get := fun _ _ _ => Except.error { reason := Reason.Forbidden, message := "forbidden" }
    Create := mapClient.Create }

/-- The sample collaborators behind the client that refuses every Get. -/
def forbiddenEnv : Env MapStore :=
  { client := forbiddenClient, randInt := sampleRandInt, bcrypt := sampleBcrypt }

/-- The error of a random source that fails. -/
def entropyErr : Err := { reason := Reason.Unknown, message := "entropy source failed" }

/-- A random source whose first three draws succeed and whose fourth and
later draws fail. -/
def failingRandInt : Nat → Nat → Except Err Nat :=
  fun k _ => if k < 3 then Except.ok (k * 7 % 62) else Except.error entropyErr

/-- The model client with the failing random source. -/
def failingRandEnv : Env MapStore :=
  { client := mapClient, randInt := failingRandInt, bcrypt := sampleBcrypt }

/-- The error of a bcrypt that fails. -/
def hashErr : Err := { reason := Reason.Unknown, message := "bcrypt failed" }

/-- The model client with a bcrypt that fails on every call. -/
def failingBcryptEnv : Env MapStore :=
  { client := mapClient, randInt := sampleRandInt, bcrypt := fun _ _ _ => Except.error hashErr }

/-- A client whose every Get reports not found and whose every Create
reports an already-exists conflict, as the second of two racing callers
sees the store. -/
def conflictClient : SecretsGetter MapStore :=
  { Get := fun _ _ _ => Except.error notFoundErr
    Create := fun s _ _ => (s, some alreadyExistsErr) }

/-- The sample collaborators behind the client of the second racing
caller. -/
def conflictEnv : Env MapStore :=
  { client := conflictClient, randInt := sampleRandInt, bcrypt := sampleBcrypt }

/-- The model client behind given random and bcrypt outcomes. -/
def modelEnv (randInt : Nat → Nat → Except Err Nat)
    (bcrypt : Nat → Bytes → Nat → Except Err Bytes) : Env MapStore :=
  { client := mapClient, randInt := randInt, bcrypt := bcrypt }

/-! ## Notions used to state the properties -/

/-- The requests a call has sent: the part of the log it appended. -/
def issued {σ : Type} (before after : World σ) : List Request :=
  after.log.drop before.log.length

/-- Is the rune one of A-Z, a-z, 0-9. -/
def isAlphabetRune (c : Char) : Bool :=
  ('A' ≤ c && c ≤ 'Z') || ('a' ≤ c && c ≤ 'z') || ('0' ≤ c && c ≤ '9')

/-- Is the byte the ASCII code of one of A-Z, a-z, 0-9. -/
def isAlphabetByte (b : UInt8) : Bool :=
  ('A'.toUInt8 ≤ b && b ≤ 'Z'.toUInt8) || ('a'.toUInt8 ≤ b && b ≤ 'z'.toUInt8) ||
    ('0'.toUInt8 ≤ b && b ≤ '9'.toUInt8)

/-! ## Lemmas on `fmt.Sprintf` -/

theorem Sprintf_verb (rest a : Bytes) (others : List Bytes) :
    Sprintf ('%'.toUInt8 :: 's'.toUInt8 :: rest) (a :: others) = a ++ Sprintf rest others := by
  simp [Sprintf]

theorem Sprintf_plain (p rest : Bytes) (args : List Bytes)
    (hp : ∀ b ∈ p, b ≠ '%'.toUInt8) :
    Sprintf (p ++ rest) args = p ++ Sprintf rest args := by
  induction p with
  | nil => rfl
  | cons b p ih =>
    have hb : b ≠ '%'.toUInt8 := hp b (List.mem_cons_self _ _)
    have ih1 := ih (fun x hx => hp x (List.mem_cons_of_mem _ hx))
    cases hq : p ++ rest with
    | nil =>
      rw [hq] at ih1
      have hp0 : p = [] := (List.append_eq_nil.mp hq).1
      have hr0 : rest = [] := (List.append_eq_nil.mp hq).2
      subst hp0; subst hr0
      simp [Sprintf]
    | cons c r =>
      rw [List.cons_append, hq]
      rw [hq] at ih1
      have hstep : Sprintf (b :: c :: r) args = b :: Sprintf (c :: r) args := by
        simp [Sprintf, hb]
      rw [hstep, ih1]
      rfl

theorem Sprintf_nil (args : List Bytes) : Sprintf [] args = [] := by
  simp [Sprintf]

theorem Sprintf_htpasswd (u h : Bytes) :
    Sprintf (lit "%s:%s") [u, h] = u ++ lit ":" ++ h := by
  have h1 : lit "%s:%s" = '%'.toUInt8 :: 's'.toUInt8 :: (lit ":" ++ ('%'.toUInt8 :: 's'.toUInt8 :: [])) := by decide
  rw [h1, Sprintf_verb, Sprintf_plain _ _ _ (by decide), Sprintf_verb, Sprintf_nil]
  simp

theorem Sprintf_authConfig (sec u p : Bytes) :
    Sprintf authConfigFormat [sec, u, p] =
      lit "[" ++ sec ++ lit "]\nauth_type = http_basic\nusername = " ++ u ++
        lit "\npassword = " ++ p ++ lit "\n" := by
  have h1 : authConfigFormat =
      lit "[" ++ ('%'.toUInt8 :: 's'.toUInt8 ::
        (lit "]\nauth_type = http_basic\nusername = " ++ ('%'.toUInt8 :: 's'.toUInt8 ::
          (lit "\npassword = " ++ ('%'.toUInt8 :: 's'.toUInt8 :: (lit "\n" ++ [])))))) := by
    decide
  rw [h1, Sprintf_plain _ _ _ (by decide), Sprintf_verb, Sprintf_plain _ _ _ (by decide),
    Sprintf_verb, Sprintf_plain _ _ _ (by decide), Sprintf_verb,
    Sprintf_plain _ _ _ (by decide), Sprintf_nil]
  simp

/-! ## Lemmas on `generateRandomPassword` -/

theorem fillBuf_ok {σ : Type} (env : Env σ) (d : Nat → Nat) :
    ∀ (n i : Nat) (w : World σ) (buf : List Char),
      (∀ j, j < n → env.randInt (w.draws + j) numChars = Except.ok (d (i + j)) ∧
        d (i + j) < numChars) →
      i + n ≤ buf.length →
      ∃ buf1 : List Char,
        fillBuf env n i w buf =
          ({ w with draws := w.draws + n }, Outcome.returned (Except.ok buf1)) ∧
        buf1.length = buf.length ∧
        (∀ j, j < n → buf1[i + j]? = chars[d (i + j)]?) ∧
        (∀ k, k < i → buf1[k]? = buf[k]?) := by
  intro n
  induction n with
  | zero =>
    intro i w buf _ _
    exact ⟨buf, rfl, rfl, fun j hj => absurd hj (Nat.not_lt_zero _), fun _ _ => rfl⟩
  | succ n ih =>
    intro i w buf hd hlen
    have h0 := hd 0 (Nat.succ_pos _)
    simp only [Nat.add_zero] at h0
    obtain ⟨r, hr⟩ : ∃ r, chars[d i]? = some r := by
      have hlt : d i < chars.length := h0.2
      exact ⟨chars[d i], List.getElem?_eq_getElem hlt⟩
    have hd1 : ∀ j, j < n →
        env.randInt (w.draws + 1 + j) numChars = Except.ok (d (i + 1 + j)) ∧
          d (i + 1 + j) < numChars := by
      intro j hj
      have := hd (j + 1) (Nat.succ_lt_succ hj)
      have e1 : w.draws + 1 + j = w.draws + (j + 1) := by omega
      have e2 : i + 1 + j = i + (j + 1) := by omega
      rw [e1, e2]
      exact this
    have hlen1 : i + 1 + n ≤ (buf.set i r).length := by
      rw [List.length_set]; omega
    obtain ⟨buf1, hrun, hl, hset, hkeep⟩ :=
      ih (i + 1) { w with draws := w.draws + 1 } (buf.set i r) hd1 hlen1
    refine ⟨buf1, ?_, ?_, ?_, ?_⟩
    · rw [fillBuf, h0.1]
      simp only [hr]
      rw [hrun]
      simp only [Nat.add_assoc, Nat.add_comm 1 n]
    · rw [hl, List.length_set]
    · intro j hj
      cases j with
      | zero =>
        rw [Nat.add_zero, hkeep i (Nat.lt_succ_self i), hr]
        have hi : i < buf.length := by omega
        simp [List.getElem?_set, hi]
      | succ j =>
        have := hset j (Nat.lt_of_succ_lt_succ hj)
        have e2 : i + 1 + j = i + (j + 1) := by omega
        rw [e2] at this
        exact this
    · intro k hk
      rw [hkeep k (Nat.lt_succ_of_lt hk)]
      have hne : i ≠ k := by omega
      simp [List.getElem?_set, hne]

theorem chars_ascii : ∀ c ∈ chars,
    String.utf8EncodeChar c = [c.toUInt8] ∧ isAlphabetRune c = true ∧
      isAlphabetByte c.toUInt8 = true ∧ c.toUInt8 < 128 := by
  decide

theorem runesToString_of_chars (l : List Char) (h : ∀ c ∈ l, c ∈ chars) :
    runesToString l = l.map Char.toUInt8 := by
  induction l with
  | nil => rfl
  | cons c l ih =>
    have hc := (chars_ascii c (h c (List.mem_cons_self _ _))).1
    have ih1 := ih (fun x hx => h x (List.mem_cons_of_mem _ hx))
    unfold runesToString at ih1 ⊢
    rw [List.flatMap_cons, ih1, hc]
    rfl

theorem generateRandomPassword_ok {σ : Type} (env : Env σ) (w : World σ) (d : Nat → Nat)
    (hd : ∀ j, j < length → env.randInt (w.draws + j) numChars = Except.ok (d j) ∧
      d j < numChars) :
    ∃ buf1 : List Char,
      generateRandomPassword env w =
        ({ w with draws := w.draws + length },
          Outcome.returned (buf1.map Char.toUInt8, none)) ∧
      buf1.length = length ∧
      (∀ j, j < length → buf1[j]? = chars[d j]?) ∧
      (∀ c ∈ buf1, c ∈ chars) := by
  have hd0 : ∀ j, j < length →
      env.randInt (w.draws + j) numChars = Except.ok (d (0 + j)) ∧ d (0 + j) < numChars := by
    intro j hj
    rw [Nat.zero_add]
    exact hd j hj
  obtain ⟨buf1, hrun, hl, hset, _⟩ :=
    fillBuf_ok env d length 0 w (List.replicate length (Char.ofNat 0)) hd0
      (by simp)
  have hl1 : buf1.length = length := by rw [hl, List.length_replicate]
  have hset1 : ∀ j, j < length → buf1[j]? = chars[d j]? := by
    intro j hj
    have := hset j hj
    rw [Nat.zero_add] at this
    exact this
  have hmem : ∀ c ∈ buf1, c ∈ chars := by
    intro c hc
    obtain ⟨j, hj, hjc⟩ := List.getElem_of_mem hc
    have hj1 : j < length := by rw [← hl1]; exact hj
    have h1 := hset1 j hj1
    rw [List.getElem?_eq_getElem hj, hjc] at h1
    exact List.getElem?_mem h1.symm
  refine ⟨buf1, ?_, hl1, hset1, hmem⟩
  unfold generateRandomPassword
  simp only [hrun]
  rw [runesToString_of_chars buf1 hmem]

theorem fillBuf_frame {σ : Type} (env : Env σ) :
    ∀ (n i : Nat) (w : World σ) (buf : List Char),
      (fillBuf env n i w buf).1.store = w.store ∧
      (fillBuf env n i w buf).1.hashes = w.hashes ∧
      (fillBuf env n i w buf).1.log = w.log := by
  intro n
  induction n with
  | zero => intro i w buf; exact ⟨rfl, rfl, rfl⟩
  | succ n ih =>
    intro i w buf
    rw [fillBuf]
    cases env.randInt w.draws numChars with
    | error e => exact ⟨rfl, rfl, rfl⟩
    | ok c =>
      dsimp only
      cases chars[c]? with
      | none => exact ⟨rfl, rfl, rfl⟩
      | some r => exact ih (i + 1) { w with draws := w.draws + 1 } (buf.set i r)

theorem generateRandomPassword_frame {σ : Type} (env : Env σ) (w : World σ) :
    (generateRandomPassword env w).1.store = w.store ∧
    (generateRandomPassword env w).1.hashes = w.hashes ∧
    (generateRandomPassword env w).1.log = w.log := by
  have h := fillBuf_frame env length 0 w (List.replicate length (Char.ofNat 0))
  simp only [generateRandomPassword]
  generalize fillBuf env length 0 w (List.replicate length (Char.ofNat 0)) = r at h
  obtain ⟨w1, o⟩ := r
  cases o with
  | panicked => exact h
  | returned x =>
    cases x with
    | error e => exact h
    | ok b => exact h

theorem fillBuf_err {σ : Type} (env : Env σ) (d : Nat → Nat) (e : Err) :
    ∀ (n k i : Nat) (w : World σ) (buf : List Char), k < n →
      (∀ j, j < k → env.randInt (w.draws + j) numChars = Except.ok (d (i + j)) ∧
        d (i + j) < numChars) →
      env.randInt (w.draws + k) numChars = Except.error e →
      fillBuf env n i w buf =
        ({ w with draws := w.draws + k + 1 }, Outcome.returned (Except.error e)) := by
  intro n
  induction n with
  | zero => intro k i w buf hk; exact absurd hk (Nat.not_lt_zero _)
  | succ n ih =>
    intro k i w buf hk hd he
    cases k with
    | zero =>
      rw [Nat.add_zero] at he
      rw [fillBuf, he]
    | succ k =>
      have h0 := hd 0 (Nat.succ_pos _)
      simp only [Nat.add_zero] at h0
      obtain ⟨r, hr⟩ : ∃ r, chars[d i]? = some r := by
        have hlt : d i < chars.length := h0.2
        exact ⟨chars[d i], List.getElem?_eq_getElem hlt⟩
      have hd1 : ∀ j, j < k →
          env.randInt (w.draws + 1 + j) numChars = Except.ok (d (i + 1 + j)) ∧
            d (i + 1 + j) < numChars := by
        intro j hj
        have := hd (j + 1) (Nat.succ_lt_succ hj)
        have e1 : w.draws + 1 + j = w.draws + (j + 1) := by omega
        have e2 : i + 1 + j = i + (j + 1) := by omega
        rw [e1, e2]
        exact this
      have he1 : env.randInt (w.draws + 1 + k) numChars = Except.error e := by
        have e1 : w.draws + 1 + k = w.draws + (k + 1) := by omega
        rw [e1]; exact he
      have hrun := ih k (i + 1) { w with draws := w.draws + 1 } (buf.set i r)
        (Nat.lt_of_succ_lt_succ hk) hd1 he1
      rw [fillBuf, h0.1]
      simp only [hr]
      rw [hrun]
      simp only [Nat.add_assoc, Nat.add_comm 1 k]

theorem generateRandomPassword_err {σ : Type} (env : Env σ) (w : World σ) (d : Nat → Nat)
    (e : Err) (k : Nat) (hk : k < length)
    (hd : ∀ j, j < k → env.randInt (w.draws + j) numChars = Except.ok (d j) ∧
      d j < numChars)
    (he : env.randInt (w.draws + k) numChars = Except.error e) :
    generateRandomPassword env w =
      ({ w with draws := w.draws + k + 1 }, Outcome.returned ([], some e)) := by
  have hd0 : ∀ j, j < k →
      env.randInt (w.draws + j) numChars = Except.ok (d (0 + j)) ∧ d (0 + j) < numChars := by
    intro j hj
    rw [Nat.zero_add]
    exact hd j hj
  have hrun := fillBuf_err env d e length k 0 w (List.replicate length (Char.ofNat 0)) hk hd0 he
  unfold generateRandomPassword
  simp only [hrun]

/-! ## Lemmas on the provisioners -/

theorem issued_of_log {σ : Type} (before after : World σ) (x : List Request)
    (h : after.log = before.log ++ x) : issued before after = x := by
  unfold issued
  rw [h, List.drop_left]

theorem createMariadb_eq_commit {σ : Type} (env : Env σ) (ns : Bytes) (w : World σ) :
    CreateMariadbPasswordSecret env ns w =
      commit env ns (mariadbPrepare env ns w).1 (mariadbPrepare env ns w).2 := by
  unfold CreateMariadbPasswordSecret mariadbPrepare
  dsimp only
  split
  · rfl
  · split <;> rfl

theorem createIronic_eq_commit {σ : Type} (env : Env σ) (ns name u sec : Bytes)
    (w : World σ) :
    createIronicSecret env ns name u sec w =
      commit env ns (ironicPrepare name u sec env ns w).1
        (ironicPrepare name u sec env ns w).2 := by
  unfold createIronicSecret ironicPrepare
  dsimp only
  split
  · rfl
  · split
    · rfl
    · rfl
    · split
      · rfl
      · split <;> rfl

theorem mariadbPrepare_frame {σ : Type} (env : Env σ) (ns : Bytes) (w : World σ) :
    (mariadbPrepare env ns w).1.store = w.store ∧
    (mariadbPrepare env ns w).1.hashes = w.hashes ∧
    (mariadbPrepare env ns w).1.log = w.log ++ [Request.Get ns baremetalSecretName] := by
  have hf := generateRandomPassword_frame env
    { w with log := w.log ++ [Request.Get ns baremetalSecretName] }
  unfold mariadbPrepare
  dsimp only
  split
  · exact ⟨rfl, rfl, rfl⟩
  · split
    all_goals
      rename_i heq
      rw [heq] at hf
      exact hf

theorem mariadbPrepare_submit {σ : Type} (env : Env σ) (ns : Bytes) (w : World σ)
    (secret : Secret) (h : (mariadbPrepare env ns w).2 = Staged.submit secret) :
    ∃ P : Bytes,
      IsNotFound (getErr (env.client.Get w.store ns baremetalSecretName)) = true ∧
      generateRandomPassword env
          { w with log := w.log ++ [Request.Get ns baremetalSecretName] } =
        ((mariadbPrepare env ns w).1, Outcome.returned (P, none)) ∧
      secret = mariadbRecord ns P := by
  unfold mariadbPrepare at h ⊢
  dsimp only at h ⊢
  split at h
  · exact absurd h (by simp)
  · rename_i hnf
    have hnf1 : IsNotFound (getErr (env.client.Get w.store ns baremetalSecretName)) = true := by
      simpa using hnf
    rw [if_neg hnf]
    split at h
    · exact absurd h (by simp)
    · exact absurd h (by simp)
    · rename_i w2 P heq
      rw [heq]
      refine ⟨P, hnf1, rfl, ?_⟩
      injection h with h1
      exact h1.symm

theorem ironicPrepare_frame {σ : Type} (env : Env σ) (ns name u sec : Bytes)
    (w : World σ) :
    (ironicPrepare name u sec env ns w).1.store = w.store ∧
    (ironicPrepare name u sec env ns w).1.log = w.log ++ [Request.Get ns name] := by
  have hf := generateRandomPassword_frame env
    { w with log := w.log ++ [Request.Get ns name] }
  unfold ironicPrepare
  dsimp only
  split
  · exact ⟨rfl, rfl⟩
  · split
    · rename_i heq
      rw [heq] at hf
      exact ⟨hf.1, hf.2.2⟩
    · rename_i heq
      rw [heq] at hf
      exact ⟨hf.1, hf.2.2⟩
    · rename_i heq
      rw [heq] at hf
      split
      · exact ⟨hf.1, hf.2.2⟩
      · split
        · exact ⟨hf.1, hf.2.2⟩
        · exact ⟨hf.1, hf.2.2⟩

theorem ironicPrepare_submit {σ : Type} (env : Env σ) (ns name u sec : Bytes)
    (w : World σ) (secret : Secret)
    (h : (ironicPrepare name u sec env ns w).2 = Staged.submit secret) :
    ∃ (w2 : World σ) (P hash : Bytes),
      IsNotFound (getErr (env.client.Get w.store ns name)) = true ∧
      generateRandomPassword env { w with log := w.log ++ [Request.Get ns name] } =
        (w2, Outcome.returned (P, none)) ∧
      env.bcrypt w2.hashes P 5 = Except.ok hash ∧
      2 < hash.length ∧
      (ironicPrepare name u sec env ns w).1 = { w2 with hashes := w2.hashes + 1 } ∧
      secret = ironicRecord ns name u sec P (hash.set 2 'y'.toUInt8) := by
  unfold ironicPrepare at h ⊢
  dsimp only at h ⊢
  split at h
  · exact absurd h (by simp)
  · rename_i hnf
    have hnf1 : IsNotFound (getErr (env.client.Get w.store ns name)) = true := by
      simpa using hnf
    rw [if_neg hnf]
    split at h
    · exact absurd h (by simp)
    · exact absurd h (by simp)
    · rename_i w2 P heq
      rw [heq]
      split at h
      · exact absurd h (by simp)
      · rename_i hash hb
        split at h
        · exact absurd h (by simp)
        · rename_i hlen
          rw [if_neg hlen]
          refine ⟨w2, P, hash, hnf1, rfl, hb, by omega, rfl, ?_⟩
          injection h with h1
          exact h1.symm

theorem createMariadb_early {σ : Type} (env : Env σ) (ns : Bytes) (w : World σ)
    (h : IsNotFound (getErr (env.client.Get w.store ns baremetalSecretName)) = false) :
    CreateMariadbPasswordSecret env ns w =
      (afterGet w ns baremetalSecretName,
        Outcome.returned (getErr (env.client.Get w.store ns baremetalSecretName))) := by
  unfold CreateMariadbPasswordSecret
  simp [h, afterGet]

theorem createIronic_early {σ : Type} (env : Env σ) (ns name u sec : Bytes) (w : World σ)
    (h : IsNotFound (getErr (env.client.Get w.store ns name)) = false) :
    createIronicSecret env ns name u sec w =
      (afterGet w ns name, Outcome.returned (getErr (env.client.Get w.store ns name))) := by
  unfold createIronicSecret
  simp [h, afterGet]

theorem run_early {σ : Type} (p : Provisioner σ) (hp : p ∈ provisioners) (env : Env σ)
    (ns : Bytes) (w : World σ)
    (h : IsNotFound (getErr (env.client.Get w.store ns p.name)) = false) :
    p.run env ns w =
      (afterGet w ns p.name, Outcome.returned (getErr (env.client.Get w.store ns p.name))) := by
  simp only [provisioners, List.mem_cons, List.mem_singleton, List.not_mem_nil, or_false] at hp
  rcases hp with rfl | rfl | rfl
  · exact createMariadb_early env ns w h
  · exact createIronic_early env ns _ _ _ w h
  · exact createIronic_early env ns _ _ _ w h

theorem issued_afterGet {σ : Type} (w : World σ) (ns name : Bytes) :
    issued w (afterGet w ns name) = [Request.Get ns name] :=
  issued_of_log _ _ _ rfl

theorem mariadb_mem {σ : Type} : (mariadb : Provisioner σ) ∈ provisioners :=
  List.mem_cons_self _ _

theorem ironic_mem {σ : Type} : (ironic : Provisioner σ) ∈ provisioners :=
  List.mem_cons_of_mem _ (List.mem_cons_self _ _)

theorem inspector_mem {σ : Type} : (inspector : Provisioner σ) ∈ provisioners :=
  List.mem_cons_of_mem _ (List.mem_cons_of_mem _ (List.mem_cons_self _ _))

theorem chars_length : chars.length = 62 := by decide

theorem chars_nodup : chars.Nodup := by decide

theorem chars_bytes_nodup : (chars.map Char.toUInt8).Nodup := by decide

theorem mem_chars_of_isAlphabetRune (c : Char) (h : isAlphabetRune c = true) : c ∈ chars := by
  have hall : ∀ n : Nat, n < 123 → isAlphabetRune (Char.ofNat n) = true →
      Char.ofNat n ∈ chars := by decide
  have hlt : c.toNat < 123 := by
    unfold isAlphabetRune at h
    simp only [Bool.or_eq_true, Bool.and_eq_true, decide_eq_true_eq, Char.le_def,
      UInt32.le_def] at h
    have hz : c.toNat = c.val.val.val := rfl
    rw [hz]
    rcases h with (h | h) | h
    · have := h.2
      exact Nat.lt_of_le_of_lt this (by decide)
    · have := h.2
      exact Nat.lt_of_le_of_lt this (by decide)
    · have := h.2
      exact Nat.lt_of_le_of_lt this (by decide)
  have := hall c.toNat hlt (by rw [Char.ofNat_toNat]; exact h)
  rw [Char.ofNat_toNat] at this
  exact this

theorem mem_chars_iff (c : Char) : c ∈ chars ↔ isAlphabetRune c = true :=
  ⟨fun h => (chars_ascii c h).2.1, mem_chars_of_isAlphabetRune c⟩

theorem generateRandomPassword_spec {σ : Type} (env : Env σ) (w : World σ) (d : Nat → Nat)
    (hd : ∀ j, j < 16 → env.randInt (w.draws + j) 62 = Except.ok (d j) ∧ d j < 62) :
    ∃ (s : Bytes) (buf : List Char),
      generateRandomPassword env w =
        ({ w with draws := w.draws + 16 }, Outcome.returned (s, none)) ∧
      s = runesToString buf ∧ s = buf.map Char.toUInt8 ∧
      s.length = 16 ∧ buf.length = 16 ∧
      (∀ i, i < 16 → buf[i]? = chars[d i]? ∧ s[i]? = (chars[d i]?).map Char.toUInt8) ∧
      (∀ c ∈ buf, isAlphabetRune c = true) ∧
      (∀ b ∈ s, isAlphabetByte b = true ∧ b < 128) := by
  obtain ⟨buf, hrun, hlen, hget, hmem⟩ := generateRandomPassword_ok env w d hd
  refine ⟨buf.map Char.toUInt8, buf, hrun, (runesToString_of_chars buf hmem).symm, rfl, ?_,
    hlen, ?_, ?_, ?_⟩
  · rw [List.length_map]; exact hlen
  · intro i hi
    refine ⟨hget i hi, ?_⟩
    rw [List.getElem?_map, hget i hi]
  · intro c hc
    exact (chars_ascii c (hmem c hc)).2.1
  · intro b hb
    obtain ⟨c, hc, rfl⟩ := List.mem_map.mp hb
    exact (chars_ascii c (hmem c hc)).2.2

theorem chars_unique_index (c : Char) (h : isAlphabetRune c = true) :
    ∃! k : Nat, k < 62 ∧ chars[k]? = some c := by
  obtain ⟨k, hk, hkc⟩ := List.getElem_of_mem (mem_chars_of_isAlphabetRune c h)
  refine ⟨k, ⟨by rw [← chars_length]; exact hk, by rw [List.getElem?_eq_getElem hk, hkc]⟩, ?_⟩
  rintro j ⟨hj, hjc⟩
  have hj1 : j < chars.length := by rw [chars_length]; exact hj
  rw [List.getElem?_eq_getElem hj1, Option.some_inj] at hjc
  exact (chars_nodup.getElem_inj_iff).mp (hjc.trans hkc.symm)

theorem chars_uniform (c : Char) (h : isAlphabetRune c = true) :
    (PMF.map (fun k : Fin 62 => chars[k.val]?) (PMF.uniformOfFintype (Fin 62))) (some c) =
      (62 : ENNReal)⁻¹ := by
  obtain ⟨k, ⟨hk, hkc⟩, huniq⟩ := chars_unique_index c h
  rw [PMF.map_apply, tsum_fintype]
  rw [Finset.sum_eq_single (⟨k, hk⟩ : Fin 62)]
  · simp [hkc, PMF.uniformOfFintype_apply]
  · intro j _ hne
    have hjc : ¬ (some c = chars[j.val]?) := by
      intro hj
      apply hne
      apply Fin.ext
      exact huniq j.val ⟨j.isLt, hj.symm⟩
    simp [hjc]
  · intro hk0
    exact absurd (Finset.mem_univ _) hk0

theorem ironicRecord_username (ns name u sec P h : Bytes) :
    (ironicRecord ns name u sec P h).field (lit "username") = some u := by
  rfl

theorem ironicRecord_password (ns name u sec P h : Bytes) :
    (ironicRecord ns name u sec P h).field (lit "password") = some P := by
  rfl

theorem ironicRecord_htpasswd (ns name u sec P h : Bytes) :
    (ironicRecord ns name u sec P h).field (lit "htpasswd") =
      some (u ++ lit ":" ++ h) := by
  rw [← Sprintf_htpasswd]
  rfl

theorem ironicRecord_authConfig (ns name u sec P h : Bytes) :
    (ironicRecord ns name u sec P h).field (lit "auth-config") =
      some (lit "[" ++ sec ++ lit "]\nauth_type = http_basic\nusername = " ++ u ++
        lit "\npassword = " ++ P ++ lit "\n") := by
  rw [← Sprintf_authConfig]
  rfl

theorem ironicRecord_keys (ns name u sec P h : Bytes) :
    (ironicRecord ns name u sec P h).keys =
      [lit "username", lit "password", lit "htpasswd", lit "auth-config"] := by
  rfl

theorem createIronic_submit {σ : Type} (env : Env σ) (ns name u sec : Bytes) (w w2 : World σ)
    (P hash : Bytes)
    (hnf : IsNotFound (getErr (env.client.Get w.store ns name)) = true)
    (hgen : generateRandomPassword env (afterGet w ns name) = (w2, Outcome.returned (P, none)))
    (hb : env.bcrypt w2.hashes P 5 = Except.ok hash)
    (hlen : 2 < hash.length) :
    createIronicSecret env ns name u sec w =
      ({ store := (env.client.Create w.store ns
            (ironicRecord ns name u sec P (hash.set 2 'y'.toUInt8))).1,
         draws := w2.draws,
         hashes := w.hashes + 1,
         log := w.log ++ [Request.Get ns name,
           Request.Create ns (ironicRecord ns name u sec P (hash.set 2 'y'.toUInt8))] },
       Outcome.returned (env.client.Create w.store ns
            (ironicRecord ns name u sec P (hash.set 2 'y'.toUInt8))).2) := by
  have hf := generateRandomPassword_frame env (afterGet w ns name)
  rw [hgen] at hf
  obtain ⟨hs, hh, hl⟩ := hf
  simp only [afterGet] at hs hh hl hgen
  rw [hh] at hb
  have hlen1 : ¬ hash.length ≤ 2 := by omega
  unfold createIronicSecret
  simp only [hnf, hgen, hb, hlen1, hs, hh, hl, Bool.not_true, Bool.false_eq_true, if_false,
    List.append_assoc, List.singleton_append]

theorem createMariadb_submit {σ : Type} (env : Env σ) (ns : Bytes) (w w2 : World σ)
    (P : Bytes)
    (hnf : IsNotFound (getErr (env.client.Get w.store ns baremetalSecretName)) = true)
    (hgen : generateRandomPassword env (afterGet w ns baremetalSecretName) =
      (w2, Outcome.returned (P, none))) :
    CreateMariadbPasswordSecret env ns w =
      ({ store := (env.client.Create w.store ns
            (mariadbRecord ns P)).1,
         draws := w2.draws,
         hashes := w.hashes,
         log := w.log ++ [Request.Get ns baremetalSecretName,
           Request.Create ns (mariadbRecord ns P)] },
       Outcome.returned (env.client.Create w.store ns
            (mariadbRecord ns P)).2) := by
  have hf := generateRandomPassword_frame env (afterGet w ns baremetalSecretName)
  rw [hgen] at hf
  obtain ⟨hs, hh, hl⟩ := hf
  simp only [afterGet] at hs hh hl hgen
  unfold CreateMariadbPasswordSecret
  simp only [hnf, hgen, hs, hh, hl, Bool.not_true, Bool.false_eq_true, if_false,
    List.append_assoc, List.singleton_append]

theorem commit_log {σ : Type} (env : Env σ) (ns : Bytes) (w : World σ) (st : Staged) :
    (commit env ns w st).1.log = w.log ++ st.requests ns := by
  cases st with
  | done r => simp [commit, Staged.requests]
  | submit secret => rfl

theorem createIronic_issued {σ : Type} (env : Env σ) (ns name u sec : Bytes) (w : World σ) :
    issued w (createIronicSecret env ns name u sec w).1 =
      Request.Get ns name :: (ironicPrepare name u sec env ns w).2.requests ns := by
  apply issued_of_log
  rw [createIronic_eq_commit, commit_log, (ironicPrepare_frame env ns name u sec w).2,
    List.append_assoc]
  rfl

theorem createMariadb_issued {σ : Type} (env : Env σ) (ns : Bytes) (w : World σ) :
    issued w (CreateMariadbPasswordSecret env ns w).1 =
      Request.Get ns baremetalSecretName :: (mariadbPrepare env ns w).2.requests ns := by
  apply issued_of_log
  rw [createMariadb_eq_commit, commit_log, (mariadbPrepare_frame env ns w).2.2,
    List.append_assoc]
  rfl

theorem createIronic_reaches_create {σ : Type} (env : Env σ) (ns name u sec : Bytes)
    (w : World σ) (ns1 : Bytes) (secret : Secret)
    (h : Request.Create ns1 secret ∈ issued w (createIronicSecret env ns name u sec w).1) :
    ns1 = ns ∧ (ironicPrepare name u sec env ns w).2 = Staged.submit secret := by
  rw [createIronic_issued] at h
  cases hst : (ironicPrepare name u sec env ns w).2 with
  | done r =>
    rw [hst] at h
    simp [Staged.requests] at h
  | submit s0 =>
    rw [hst] at h
    simp [Staged.requests] at h
    exact ⟨h.1, by rw [h.2]⟩

theorem set_two_length (h : Bytes) (b : UInt8) : (h.set 2 b).length = h.length :=
  List.length_set _ _ _

theorem set_two_other (h : Bytes) (b : UInt8) (i : Nat) (hi : i ≠ 2) :
    (h.set 2 b)[i]? = h[i]? := by
  rw [List.getElem?_set_ne (Ne.symm hi)]

theorem set_two_marker (h : Bytes) (b : UInt8) (hlen : 2 < h.length) :
    (h.set 2 b)[2]? = some b := by
  rw [List.getElem?_set_self hlen]

set_option maxRecDepth 100000 in
theorem sample_ironic_run :
    createIronicSecret sampleEnv sampleNamespace ironicSecretName ironicUsername
        (lit "ironic") emptyWorld =
      ({ store := [(sampleNamespace, sampleIronicSecret)], draws := 16, hashes := 1,
         log := [Request.Get sampleNamespace ironicSecretName,
                 Request.Create sampleNamespace sampleIronicSecret] },
       Outcome.returned none) := by
  rfl

theorem isNotFound_of_get {σ : Type} (env : Env σ) (s : σ) (ns name : Bytes) (e : Err)
    (hget : env.client.Get s ns name = Except.error e) (he : e.reason = Reason.NotFound) :
    IsNotFound (getErr (env.client.Get s ns name)) = true := by
  rw [hget]
  simp [getErr, IsNotFound, he]

theorem set_marker_of_form (v : UInt8) (rest : Bytes) :
    (lit "$2" ++ [v] ++ lit "$05$" ++ rest).set 2 'y'.toUInt8 = lit "$2y$05$" ++ rest := by
  have h1 : lit "$2" = [36, 50] := by decide
  have h2 : lit "$05$" = [36, 48, 53, 36] := by decide
  have h3 : lit "$2y$05$" = [36, 50, 'y'.toUInt8, 36, 48, 53, 36] := by decide
  rw [h1, h2, h3]
  rfl

set_option maxRecDepth 100000 in
theorem sample_generate :
    generateRandomPassword sampleEnv (afterGet emptyWorld sampleNamespace ironicSecretName) =
      ({ store := [], draws := 16, hashes := 0,
         log := [Request.Get sampleNamespace ironicSecretName] },
        Outcome.returned (samplePassword, none)) := by
  rfl

theorem authConfig_ironic (P : Bytes) :
    lit "[" ++ lit "ironic" ++ lit "]\nauth_type = http_basic\nusername = " ++
        ironicUsername ++ lit "\npassword = " ++ P ++ lit "\n" =
      lit "[ironic]\nauth_type = http_basic\nusername = ironic-user\npassword = " ++ P ++
        lit "\n" := by
  have h : lit "[" ++ lit "ironic" ++ lit "]\nauth_type = http_basic\nusername = " ++
      ironicUsername ++ lit "\npassword = " =
      lit "[ironic]\nauth_type = http_basic\nusername = ironic-user\npassword = " := by
    decide
  rw [h]

theorem authConfig_inspector (P : Bytes) :
    lit "[" ++ lit "inspector" ++ lit "]\nauth_type = http_basic\nusername = " ++
        inspectorUsername ++ lit "\npassword = " ++ P ++ lit "\n" =
      lit "[inspector]\nauth_type = http_basic\nusername = inspector-user\npassword = " ++
        P ++ lit "\n" := by
  have h : lit "[" ++ lit "inspector" ++ lit "]\nauth_type = http_basic\nusername = " ++
      inspectorUsername ++ lit "\npassword = " =
      lit "[inspector]\nauth_type = http_basic\nusername = inspector-user\npassword = " := by
    decide
  rw [h]

set_option maxRecDepth 100000 in
theorem sample_generate_inspector :
    generateRandomPassword sampleEnv (afterGet emptyWorld sampleNamespace inspectorSecretName) =
      ({ store := [], draws := 16, hashes := 0,
         log := [Request.Get sampleNamespace inspectorSecretName] },
        Outcome.returned (samplePassword, none)) := by
  rfl

theorem createIronic_genErr {σ : Type} (env : Env σ) (ns name u sec : Bytes) (w w2 : World σ)
    (s : Bytes) (e : Err)
    (hnf : IsNotFound (getErr (env.client.Get w.store ns name)) = true)
    (hgen : generateRandomPassword env (afterGet w ns name) =
      (w2, Outcome.returned (s, some e))) :
    createIronicSecret env ns name u sec w = (w2, Outcome.returned (some e)) := by
  simp only [afterGet] at hgen
  unfold createIronicSecret
  simp only [hnf, hgen, Bool.not_true, Bool.false_eq_true, if_false]

theorem createMariadb_genErr {σ : Type} (env : Env σ) (ns : Bytes) (w w2 : World σ)
    (s : Bytes) (e : Err)
    (hnf : IsNotFound (getErr (env.client.Get w.store ns baremetalSecretName)) = true)
    (hgen : generateRandomPassword env (afterGet w ns baremetalSecretName) =
      (w2, Outcome.returned (s, some e))) :
    CreateMariadbPasswordSecret env ns w = (w2, Outcome.returned (some e)) := by
  simp only [afterGet] at hgen
  unfold CreateMariadbPasswordSecret
  simp only [hnf, hgen, Bool.not_true, Bool.false_eq_true, if_false]

theorem createIronic_bcryptErr {σ : Type} (env : Env σ) (ns name u sec : Bytes)
    (w w2 : World σ) (P : Bytes) (e : Err)
    (hnf : IsNotFound (getErr (env.client.Get w.store ns name)) = true)
    (hgen : generateRandomPassword env (afterGet w ns name) =
      (w2, Outcome.returned (P, none)))
    (hb : env.bcrypt w2.hashes P 5 = Except.error e) :
    createIronicSecret env ns name u sec w =
      ({ w2 with hashes := w2.hashes + 1 }, Outcome.returned (some e)) := by
  simp only [afterGet] at hgen
  unfold createIronicSecret
  simp only [hnf, hgen, hb, Bool.not_true, Bool.false_eq_true, if_false]

theorem run_genErr {σ : Type} (p : Provisioner σ) (hp : p ∈ provisioners) (env : Env σ)
    (ns : Bytes) (w w2 : World σ) (s : Bytes) (e : Err)
    (hnf : IsNotFound (getErr (env.client.Get w.store ns p.name)) = true)
    (hgen : generateRandomPassword env (afterGet w ns p.name) =
      (w2, Outcome.returned (s, some e))) :
    p.run env ns w = (w2, Outcome.returned (some e)) := by
  simp only [provisioners, List.mem_cons, List.mem_singleton, List.not_mem_nil, or_false] at hp
  rcases hp with rfl | rfl | rfl
  · exact createMariadb_genErr env ns w w2 s e hnf hgen
  · exact createIronic_genErr env ns _ _ _ w w2 s e hnf hgen
  · exact createIronic_genErr env ns _ _ _ w w2 s e hnf hgen

theorem run_bcryptErr {σ : Type} (p : Provisioner σ) (hp : p = ironic ∨ p = inspector)
    (env : Env σ) (ns : Bytes) (w w2 : World σ) (P : Bytes) (e : Err)
    (hnf : IsNotFound (getErr (env.client.Get w.store ns p.name)) = true)
    (hgen : generateRandomPassword env (afterGet w ns p.name) =
      (w2, Outcome.returned (P, none)))
    (hb : env.bcrypt w2.hashes P 5 = Except.error e) :
    p.run env ns w = ({ w2 with hashes := w2.hashes + 1 }, Outcome.returned (some e)) := by
  rcases hp with rfl | rfl
  · exact createIronic_bcryptErr env ns _ _ _ w w2 P e hnf hgen hb
  · exact createIronic_bcryptErr env ns _ _ _ w w2 P e hnf hgen hb

theorem mariadbRecord_keys (ns P : Bytes) : (mariadbRecord ns P).keys = [lit "password"] := by
  rfl

theorem run_issued {σ : Type} (p : Provisioner σ) (hp : p ∈ provisioners) (env : Env σ)
    (ns : Bytes) (w : World σ) :
    issued w (p.run env ns w).1 = [Request.Get ns p.name] ∨
    ∃ secret : Secret,
      issued w (p.run env ns w).1 = [Request.Get ns p.name, Request.Create ns secret] ∧
      secret.keys = p.keys := by
  simp only [provisioners, List.mem_cons, List.mem_singleton, List.not_mem_nil, or_false] at hp
  rcases hp with rfl | rfl | rfl
  · have hi : issued w (mariadb.run env ns w).1 = _ := createMariadb_issued env ns w
    cases hst : (mariadbPrepare env ns w).2 with
    | done r => rw [hst] at hi; exact Or.inl hi
    | submit secret =>
      rw [hst] at hi
      obtain ⟨P, _, _, hrec⟩ := mariadbPrepare_submit env ns w secret hst
      exact Or.inr ⟨secret, hi, by rw [hrec]; rfl⟩
  · have hi : issued w (ironic.run env ns w).1 = _ :=
      createIronic_issued env ns ironicSecretName ironicUsername (lit "ironic") w
    cases hst : (ironicPrepare ironicSecretName ironicUsername (lit "ironic") env ns w).2 with
    | done r => rw [hst] at hi; exact Or.inl hi
    | submit secret =>
      rw [hst] at hi
      obtain ⟨_, P, h, _, _, _, _, _, hrec⟩ := ironicPrepare_submit env ns _ _ _ w secret hst
      exact Or.inr ⟨secret, hi, by rw [hrec]; rfl⟩
  · have hi : issued w (inspector.run env ns w).1 = _ :=
      createIronic_issued env ns inspectorSecretName inspectorUsername (lit "inspector") w
    cases hst : (ironicPrepare inspectorSecretName inspectorUsername (lit "inspector")
      env ns w).2 with
    | done r => rw [hst] at hi; exact Or.inl hi
    | submit secret =>
      rw [hst] at hi
      obtain ⟨_, P, h, _, _, _, _, _, hrec⟩ := ironicPrepare_submit env ns _ _ _ w secret hst
      exact Or.inr ⟨secret, hi, by rw [hrec]; rfl⟩

/-! ## Lemmas on the model store -/

theorem mapClient_get_absent (s : MapStore) (ns name : Bytes)
    (h : s.lookup ns name = none) : mapClient.Get s ns name = Except.error notFoundErr := by
  simp [mapClient, h]

theorem mapClient_get_present (s : MapStore) (ns name : Bytes) (r : Secret)
    (h : s.lookup ns name = some r) : mapClient.Get s ns name = Except.ok r := by
  simp [mapClient, h]

theorem mapClient_create_absent (s : MapStore) (ns : Bytes) (secret : Secret)
    (h : s.lookup ns secret.Name = none) :
    mapClient.Create s ns secret = (s ++ [(ns, secret)], none) := by
  simp [mapClient, h]

theorem mapClient_create_present (s : MapStore) (ns : Bytes) (secret r : Secret)
    (h : s.lookup ns secret.Name = some r) :
    mapClient.Create s ns secret = (s, some alreadyExistsErr) := by
  simp [mapClient, h]

theorem lookup_append_new (s : MapStore) (ns : Bytes) (secret : Secret)
    (h : s.lookup ns secret.Name = none) :
    (s ++ [(ns, secret)]).lookup ns secret.Name = some secret := by
  unfold MapStore.lookup at h ⊢
  rw [Option.map_eq_none'] at h
  rw [List.find?_append, h]
  simp

theorem count_append_new (s : MapStore) (ns : Bytes) (secret : Secret)
    (h : s.lookup ns secret.Name = none) :
    (s ++ [(ns, secret)]).count ns secret.Name = 1 := by
  unfold MapStore.lookup at h
  rw [Option.map_eq_none', List.find?_eq_none] at h
  unfold MapStore.count
  rw [List.countP_append]
  have h0 : List.countP (fun e => decide (e.1 = ns ∧ e.2.Name = secret.Name)) s = 0 := by
    rw [List.countP_eq_zero]
    exact h
  rw [h0]
  simp [List.countP_cons]

theorem generateRandomPassword_of_draws {σ : Type} (env : Env σ) (w : World σ)
    (h : ∀ j, j < 16 → ∃ c : Nat, env.randInt (w.draws + j) 62 = Except.ok c ∧ c < 62) :
    ∃ P : Bytes,
      generateRandomPassword env w =
        ({ w with draws := w.draws + 16 }, Outcome.returned (P, none)) := by
  obtain ⟨s, _, h1, _⟩ := generateRandomPassword_spec env w
    (fun j => if hj : j < 16 then Classical.choose (h j hj) else 0)
    (fun j hj => by
      dsimp only
      rw [dif_pos hj]
      exact Classical.choose_spec (h j hj))
  exact ⟨s, h1⟩

theorem mariadbPrepare_ok {σ : Type} (env : Env σ) (ns : Bytes) (w w2 : World σ) (P : Bytes)
    (hnf : IsNotFound (getErr (env.client.Get w.store ns baremetalSecretName)) = true)
    (hgen : generateRandomPassword env (afterGet w ns baremetalSecretName) =
      (w2, Outcome.returned (P, none))) :
    mariadbPrepare env ns w = (w2, Staged.submit (mariadbRecord ns P)) := by
  simp only [afterGet] at hgen
  unfold mariadbPrepare
  simp only [hnf, hgen, Bool.not_true, Bool.false_eq_true, if_false]

theorem ironicPrepare_ok {σ : Type} (env : Env σ) (ns name u sec : Bytes) (w w2 : World σ)
    (P hash : Bytes)
    (hnf : IsNotFound (getErr (env.client.Get w.store ns name)) = true)
    (hgen : generateRandomPassword env (afterGet w ns name) = (w2, Outcome.returned (P, none)))
    (hb : env.bcrypt w2.hashes P 5 = Except.ok hash)
    (hlen : 2 < hash.length) :
    ironicPrepare name u sec env ns w =
      ({ w2 with hashes := w2.hashes + 1 },
        Staged.submit (ironicRecord ns name u sec P (hash.set 2 'y'.toUInt8))) := by
  simp only [afterGet] at hgen
  have hlen1 : ¬ hash.length ≤ 2 := by omega
  unfold ironicPrepare
  simp only [hnf, hgen, hb, hlen1, Bool.not_true, Bool.false_eq_true, if_false]

theorem run_eq_commit {σ : Type} (p : Provisioner σ) (hp : p ∈ provisioners) (env : Env σ)
    (ns : Bytes) (w : World σ) :
    p.run env ns w = commit env ns (p.prepare env ns w).1 (p.prepare env ns w).2 := by
  simp only [provisioners, List.mem_cons, List.mem_singleton, List.not_mem_nil, or_false] at hp
  rcases hp with rfl | rfl | rfl
  · exact createMariadb_eq_commit env ns w
  · exact createIronic_eq_commit env ns _ _ _ w
  · exact createIronic_eq_commit env ns _ _ _ w

theorem prepare_ok {σ : Type} (p : Provisioner σ) (hp : p ∈ provisioners) (env : Env σ)
    (ns : Bytes) (w : World σ)
    (hnf : IsNotFound (getErr (env.client.Get w.store ns p.name)) = true)
    (hrand : ∀ j, j < 16 → ∃ c : Nat, env.randInt (w.draws + j) 62 = Except.ok c ∧ c < 62)
    (hb : p = mariadb ∨
      ∀ P : Bytes, ∃ h : Bytes, env.bcrypt w.hashes P 5 = Except.ok h ∧ 2 < h.length) :
    ∃ (w1 : World σ) (secret : Secret),
      p.prepare env ns w = (w1, Staged.submit secret) ∧
      secret.Name = p.name ∧ secret.keys = p.keys ∧
      w1.store = w.store ∧ w1.draws = w.draws + 16 ∧
      w1.log = w.log ++ [Request.Get ns p.name] := by
  obtain ⟨P, hgen⟩ := generateRandomPassword_of_draws env (afterGet w ns p.name) hrand
  simp only [provisioners, List.mem_cons, List.mem_singleton, List.not_mem_nil, or_false] at hp
  have hiron : ∀ (name u sec : Bytes),
      IsNotFound (getErr (env.client.Get w.store ns name)) = true →
      generateRandomPassword env (afterGet w ns name) =
        ({ afterGet w ns name with draws := (afterGet w ns name).draws + 16 },
          Outcome.returned (P, none)) →
      (∀ P : Bytes, ∃ h : Bytes, env.bcrypt w.hashes P 5 = Except.ok h ∧ 2 < h.length) →
      ∃ (w1 : World σ) (secret : Secret),
        ironicPrepare name u sec env ns w = (w1, Staged.submit secret) ∧
        secret.Name = name ∧
        secret.keys = [lit "username", lit "password", lit "htpasswd", lit "auth-config"] ∧
        w1.store = w.store ∧ w1.draws = w.draws + 16 ∧
        w1.log = w.log ++ [Request.Get ns name] := by
    intro name u sec hnf1 hgen1 hb1
    obtain ⟨h, hbh, hlen⟩ := hb1 P
    exact ⟨_, _, ironicPrepare_ok env ns name u sec w _ P h hnf1 hgen1 hbh hlen,
      rfl, rfl, rfl, rfl, rfl⟩
  rcases hp with rfl | rfl | rfl
  · exact ⟨_, _, mariadbPrepare_ok env ns w _ P hnf hgen, rfl, rfl, rfl, rfl, rfl⟩
  · rcases hb with hb | hb
    · exact absurd (congrArg Provisioner.name hb)
        (show ¬ ironicSecretName = baremetalSecretName by decide)
    · exact hiron _ _ _ hnf hgen hb
  · rcases hb with hb | hb
    · exact absurd (congrArg Provisioner.name hb)
        (show ¬ inspectorSecretName = baremetalSecretName by decide)
    · exact hiron _ _ _ hnf hgen hb

theorem model_first_run (p : Provisioner MapStore) (hp : p ∈ provisioners)
    (randInt : Nat → Nat → Except Err Nat) (bcrypt : Nat → Bytes → Nat → Except Err Bytes)
    (ns : Bytes) (w : World MapStore)
    (habsent : w.store.lookup ns p.name = none)
    (hrand : ∀ j, j < 16 → ∃ c : Nat, randInt (w.draws + j) 62 = Except.ok c ∧ c < 62)
    (hb : p = mariadb ∨
      ∀ P : Bytes, ∃ h : Bytes, bcrypt w.hashes P 5 = Except.ok h ∧ 2 < h.length) :
    ∃ (secret : Secret) (hashes : Nat),
      secret.Name = p.name ∧ secret.keys = p.keys ∧
      p.prepare (modelEnv randInt bcrypt) ns w =
        ({ store := w.store, draws := w.draws + 16, hashes := hashes,
           log := w.log ++ [Request.Get ns p.name] }, Staged.submit secret) ∧
      p.run (modelEnv randInt bcrypt) ns w =
        ({ store := w.store ++ [(ns, secret)], draws := w.draws + 16, hashes := hashes,
           log := w.log ++ [Request.Get ns p.name, Request.Create ns secret] },
          Outcome.returned none) := by
  have hnf : IsNotFound (getErr ((modelEnv randInt bcrypt).client.Get w.store ns p.name)) =
      true :=
    isNotFound_of_get (modelEnv randInt bcrypt) w.store ns p.name notFoundErr
      (mapClient_get_absent w.store ns p.name habsent) rfl
  obtain ⟨w1, secret, hprep, hname, hkeys, hs, hd, hl⟩ :=
    prepare_ok p hp (modelEnv randInt bcrypt) ns w hnf hrand hb
  have hw1 : w1 =
      { store := w.store, draws := w.draws + 16, hashes := w1.hashes,
        log := w.log ++ [Request.Get ns p.name] } := by
    cases w1
    simp only at hs hd hl
    rw [hs, hd, hl]
  refine ⟨secret, w1.hashes, hname, hkeys, ?_, ?_⟩
  · rw [hprep]
    exact congrArg (fun x => (x, Staged.submit secret)) hw1
  · have hcreate : mapClient.Create w.store ns secret = (w.store ++ [(ns, secret)], none) :=
      mapClient_create_absent w.store ns secret (by rw [hname]; exact habsent)
    rw [run_eq_commit p hp, hprep]
    show commit (modelEnv randInt bcrypt) ns w1 (Staged.submit secret) = _
    rw [hw1]
    simp only [commit, modelEnv, hcreate, List.append_assoc, List.singleton_append]

theorem model_race (p : Provisioner MapStore) (hp : p ∈ provisioners)
    (randInt : Nat → Nat → Except Err Nat) (bcrypt : Nat → Bytes → Nat → Except Err Bytes)
    (ns : Bytes) (w : World MapStore)
    (habsent : w.store.lookup ns p.name = none)
    (hrand : ∀ j, j < 32 → ∃ c : Nat, randInt (w.draws + j) 62 = Except.ok c ∧ c < 62)
    (hb : p = mariadb ∨
      ∀ (k : Nat) (P : Bytes), ∃ h : Bytes, bcrypt k P 5 = Except.ok h ∧ 2 < h.length) :
    ∃ (sa sb : Secret) (draws hashes : Nat),
      sa.Name = p.name ∧ sa.keys = p.keys ∧
      race p.prepare (modelEnv randInt bcrypt) ns w =
        { world :=
            { store := w.store ++ [(ns, sa)], draws := draws, hashes := hashes,
              log := w.log ++ [Request.Get ns p.name, Request.Get ns p.name,
                Request.Create ns sa, Request.Create ns sb] },
          recA := Staged.submit sa,
          recB := Staged.submit sb,
          retA := Outcome.returned none,
          retB := Outcome.returned (some alreadyExistsErr) } := by
  have hrandA : ∀ j, j < 16 → ∃ c : Nat, randInt (w.draws + j) 62 = Except.ok c ∧ c < 62 :=
    fun j hj => hrand j (by omega)
  have hbA : p = mariadb ∨
      ∀ P : Bytes, ∃ h : Bytes, bcrypt w.hashes P 5 = Except.ok h ∧ 2 < h.length :=
    hb.imp id (fun h => h w.hashes)
  obtain ⟨sa, ha, hnameA, hkeysA, hprepA, _⟩ :=
    model_first_run p hp randInt bcrypt ns w habsent hrandA hbA
  have hrandB : ∀ j, j < 16 →
      ∃ c : Nat, randInt (w.draws + 16 + j) 62 = Except.ok c ∧ c < 62 := by
    intro j hj
    have := hrand (16 + j) (by omega)
    rw [← Nat.add_assoc] at this
    exact this
  have hbB : p = mariadb ∨
      ∀ P : Bytes, ∃ h : Bytes, bcrypt ha P 5 = Except.ok h ∧ 2 < h.length :=
    hb.imp id (fun h => h ha)
  obtain ⟨sb, hbh, hnameB, _, hprepB, _⟩ :=
    model_first_run p hp randInt bcrypt ns
      { store := w.store, draws := w.draws + 16, hashes := ha,
        log := w.log ++ [Request.Get ns p.name] } habsent hrandB hbB
  have hcreateA : mapClient.Create w.store ns sa = (w.store ++ [(ns, sa)], none) :=
    mapClient_create_absent w.store ns sa (by rw [hnameA]; exact habsent)
  have hlook : (w.store ++ [(ns, sa)]).lookup ns sb.Name = some sa := by
    rw [hnameB, ← hnameA]
    exact lookup_append_new w.store ns sa (by rw [hnameA]; exact habsent)
  have hcreateB : mapClient.Create (w.store ++ [(ns, sa)]) ns sb =
      (w.store ++ [(ns, sa)], some alreadyExistsErr) :=
    mapClient_create_present _ ns sb sa hlook
  refine ⟨sa, sb, w.draws + 16 + 16, hbh, hnameA, hkeysA, ?_⟩
  have hcA : (modelEnv randInt bcrypt).client.Create w.store ns sa =
      (w.store ++ [(ns, sa)], none) := hcreateA
  have hcB : (modelEnv randInt bcrypt).client.Create (w.store ++ [(ns, sa)]) ns sb =
      (w.store ++ [(ns, sa)], some alreadyExistsErr) := hcreateB
  unfold race
  simp only [hprepA, hprepB, commit, hcA, hcB, List.append_assoc, List.singleton_append]
  rfl

theorem run_create_result {σ : Type} (p : Provisioner σ) (hp : p ∈ provisioners)
    (env : Env σ) (ns : Bytes) (w : World σ)
    (hnf : IsNotFound (getErr (env.client.Get w.store ns p.name)) = true)
    (hrand : ∀ j, j < 16 → ∃ c : Nat, env.randInt (w.draws + j) 62 = Except.ok c ∧ c < 62)
    (hb : p = mariadb ∨
      ∀ P : Bytes, ∃ h : Bytes, env.bcrypt w.hashes P 5 = Except.ok h ∧ 2 < h.length) :
    ∃ secret : Secret,
      secret.Name = p.name ∧
      issued w (p.run env ns w).1 = [Request.Get ns p.name, Request.Create ns secret] ∧
      (p.run env ns w).2 = Outcome.returned (env.client.Create w.store ns secret).2 ∧
      (p.run env ns w).1.store = (env.client.Create w.store ns secret).1 := by
  obtain ⟨w1, secret, hprep, hname, _, hs, _, hl⟩ := prepare_ok p hp env ns w hnf hrand hb
  refine ⟨secret, hname, ?_, ?_, ?_⟩
  · apply issued_of_log
    rw [run_eq_commit p hp, hprep]
    show w1.log ++ [Request.Create ns secret] = _
    rw [hl, List.append_assoc]
    rfl
  · rw [run_eq_commit p hp, hprep]
    show Outcome.returned (env.client.Create w1.store ns secret).2 = _
    rw [hs]
  · rw [run_eq_commit p hp, hprep]
    show (env.client.Create w1.store ns secret).1 = _
    rw [hs]

/-! ## The properties -/

/-- C1. For each of the three provisioners, every store state and every
namespace: when the Get of the secret's name succeeds, the call returns nil,
and the world after it is the world before it with only the Get request
added to the log: no Create is issued, no random draw and no bcrypt call is
made, and the store is unchanged. -/
theorem C1_existing_secret_untouched {σ : Type} (p : Provisioner σ)
    (hp : p ∈ provisioners) (env : Env σ) (ns : Bytes) (w : World σ) (r : Secret)
    (hget : env.client.Get w.store ns p.name = Except.ok r) :
    (p.run env ns w).2 = Outcome.returned none ∧
    issued w (p.run env ns w).1 = [Request.Get ns p.name] ∧
    (∀ q ∈ issued w (p.run env ns w).1, q.isCreate = false) ∧
    (p.run env ns w).1.draws = w.draws ∧
    (p.run env ns w).1.hashes = w.hashes ∧
    (p.run env ns w).1.store = w.store := by
  have h : IsNotFound (getErr (env.client.Get w.store ns p.name)) = false := by
    rw [hget]; rfl
  rw [run_early p hp env ns w h, hget, issued_afterGet]
  refine ⟨rfl, rfl, ?_, rfl, rfl, rfl⟩
  intro q hq
  rw [List.mem_singleton] at hq
  rw [hq]
  rfl

/-- Witness of C1: the mariadb provisioner on a store that holds the
secret. -/
theorem C1_existing_secret_untouched_witness :
    sampleEnv.client.Get provisionedWorld.store sampleNamespace
        (mariadb : Provisioner MapStore).name = Except.ok oldSecret ∧
    (mariadb.run sampleEnv sampleNamespace provisionedWorld).2 = Outcome.returned none ∧
    (mariadb.run sampleEnv sampleNamespace provisionedWorld).1.store =
      [(sampleNamespace, oldSecret)] :=
  have h := C1_existing_secret_untouched mariadb mariadb_mem sampleEnv sampleNamespace
    provisionedWorld oldSecret rfl
  ⟨rfl, h.1, h.2.2.2.2.2⟩

/-- C2. For each of the three provisioners and every error of the Get that
is not a not-found error: the call returns exactly that error, sends no
request but the Get, and leaves the store unchanged. -/
theorem C2_read_error_propagates {σ : Type} (p : Provisioner σ)
    (hp : p ∈ provisioners) (env : Env σ) (ns : Bytes) (w : World σ) (e : Err)
    (hget : env.client.Get w.store ns p.name = Except.error e)
    (hne : e.reason ≠ Reason.NotFound) :
    (p.run env ns w).2 = Outcome.returned (some e) ∧
    issued w (p.run env ns w).1 = [Request.Get ns p.name] ∧
    (∀ q ∈ issued w (p.run env ns w).1, q.isCreate = false) ∧
    (p.run env ns w).1.store = w.store := by
  have h : IsNotFound (getErr (env.client.Get w.store ns p.name)) = false := by
    rw [hget]
    simp [getErr, IsNotFound, hne]
  rw [run_early p hp env ns w h, hget, issued_afterGet]
  refine ⟨rfl, rfl, ?_, rfl⟩
  intro q hq
  rw [List.mem_singleton] at hq
  rw [hq]
  rfl

/-- Witness of C2: the ironic provisioner behind a client that refuses the
Get. -/
theorem C2_read_error_propagates_witness :
    (ironic.run forbiddenEnv sampleNamespace emptyWorld).2 =
        Outcome.returned (some { reason := Reason.Forbidden, message := "forbidden" }) ∧
    (ironic.run forbiddenEnv sampleNamespace emptyWorld).1.store = [] :=
  have h := C2_read_error_propagates ironic ironic_mem forbiddenEnv sampleNamespace
    emptyWorld { reason := Reason.Forbidden, message := "forbidden" } rfl (by decide)
  ⟨h.1, h.2.2.2⟩

set_option maxRecDepth 100000 in
/-- C3, as stated, fails.  Behind a client whose Get reports not found and
whose Create reports an already-exists conflict, the ironic provisioner
returns that conflict error, not nil; and in the interleaving Get of A, Get
of B, Create of A, Create of B on the empty model store the second caller
returns the conflict error, not nil. -/
theorem C3_conflict_not_nil_counterexample :
    conflictEnv.client.Get emptyWorld.store sampleNamespace ironicSecretName =
      Except.error notFoundErr ∧
    (conflictEnv.client.Create emptyWorld.store sampleNamespace sampleIronicSecret).2 =
      some alreadyExistsErr ∧
    alreadyExistsErr.reason = Reason.AlreadyExists ∧
    (CreateIronicPasswordSecret conflictEnv sampleNamespace emptyWorld).2 =
      Outcome.returned (some alreadyExistsErr) ∧
    (CreateIronicPasswordSecret conflictEnv sampleNamespace emptyWorld).2 ≠
      Outcome.returned none ∧
    (race ironic.prepare sampleEnv sampleNamespace emptyWorld).retA = Outcome.returned none ∧
    (race ironic.prepare sampleEnv sampleNamespace emptyWorld).retB =
      Outcome.returned (some alreadyExistsErr) ∧
    (race ironic.prepare sampleEnv sampleNamespace emptyWorld).retB ≠
      Outcome.returned none := by
  have h1 : (CreateIronicPasswordSecret conflictEnv sampleNamespace emptyWorld).2 =
      Outcome.returned (some alreadyExistsErr) := rfl
  have h2 : (race ironic.prepare sampleEnv sampleNamespace emptyWorld).retB =
      Outcome.returned (some alreadyExistsErr) := rfl
  refine ⟨rfl, rfl, rfl, h1, ?_, rfl, h2, ?_⟩
  · rw [h1]; decide
  · rw [h2]; decide

/-- C3, amended.  For each of the three provisioners: when the Get reports
not found and the password (and hash) is generated, the call sends one
Create and returns what that Create returns, unchanged; so when the Create
fails with an already-exists conflict the call returns that conflict error
to the caller, without a retry.  In the interleaving Get of A, Get of B,
Create of A, Create of B on a model store in which the name is absent, A
returns nil, B returns the already-exists error, each sends one Create, and
the store ends as the initial store with A's record added: it holds exactly
one secret of that name, the first writer's, not overwritten. -/
theorem C3_conflict_is_returned (p : Provisioner MapStore) (hp : p ∈ provisioners) :
    (∀ (env : Env MapStore) (ns : Bytes) (w : World MapStore) (e0 e : Err),
      env.client.Get w.store ns p.name = Except.error e0 → e0.reason = Reason.NotFound →
      (∀ j, j < 16 → ∃ c : Nat, env.randInt (w.draws + j) 62 = Except.ok c ∧ c < 62) →
      (p = mariadb ∨
        ∀ P : Bytes, ∃ h : Bytes, env.bcrypt w.hashes P 5 = Except.ok h ∧ 2 < h.length) →
      (∀ secret : Secret, env.client.Create w.store ns secret = (w.store, some e)) →
      e.reason = Reason.AlreadyExists →
      (p.run env ns w).2 = Outcome.returned (some e) ∧
      (issued w (p.run env ns w).1).countP Request.isCreate = 1 ∧
      (p.run env ns w).1.store = w.store) ∧
    (∀ (randInt : Nat → Nat → Except Err Nat) (bcrypt : Nat → Bytes → Nat → Except Err Bytes)
      (ns : Bytes) (w : World MapStore),
      w.store.lookup ns p.name = none →
      (∀ j, j < 32 → ∃ c : Nat, randInt (w.draws + j) 62 = Except.ok c ∧ c < 62) →
      (p = mariadb ∨
        ∀ (k : Nat) (P : Bytes), ∃ h : Bytes, bcrypt k P 5 = Except.ok h ∧ 2 < h.length) →
      ∃ sa sb : Secret,
        (race p.prepare (modelEnv randInt bcrypt) ns w).recA = Staged.submit sa ∧
        (race p.prepare (modelEnv randInt bcrypt) ns w).recB = Staged.submit sb ∧
        (race p.prepare (modelEnv randInt bcrypt) ns w).retA = Outcome.returned none ∧
        (race p.prepare (modelEnv randInt bcrypt) ns w).retB =
          Outcome.returned (some alreadyExistsErr) ∧
        alreadyExistsErr.reason = Reason.AlreadyExists ∧
        issued w (race p.prepare (modelEnv randInt bcrypt) ns w).world =
          [Request.Get ns p.name, Request.Get ns p.name,
            Request.Create ns sa, Request.Create ns sb] ∧
        (race p.prepare (modelEnv randInt bcrypt) ns w).world.store =
          w.store ++ [(ns, sa)] ∧
        (race p.prepare (modelEnv randInt bcrypt) ns w).world.store.lookup ns p.name =
          some sa ∧
        (race p.prepare (modelEnv randInt bcrypt) ns w).world.store.count ns p.name = 1) := by
  constructor
  · intro env ns w e0 e hget he0 hrand hb hcreate _
    have hnf := isNotFound_of_get env w.store ns p.name e0 hget he0
    obtain ⟨secret, _, hi, hret, hstore⟩ := run_create_result p hp env ns w hnf hrand hb
    rw [hcreate secret] at hret hstore
    refine ⟨hret, ?_, hstore⟩
    rw [hi]
    simp [List.countP_cons, Request.isCreate]
  · intro randInt bcrypt ns w habsent hrand hb
    obtain ⟨sa, sb, draws, hashes, hname, _, hrace⟩ :=
      model_race p hp randInt bcrypt ns w habsent hrand hb
    rw [hrace]
    refine ⟨sa, sb, rfl, rfl, rfl, rfl, rfl, issued_of_log _ _ _ rfl, rfl, ?_, ?_⟩
    · show (w.store ++ [(ns, sa)]).lookup ns p.name = some sa
      rw [← hname]
      exact lookup_append_new w.store ns sa (by rw [hname]; exact habsent)
    · show (w.store ++ [(ns, sa)]).count ns p.name = 1
      rw [← hname]
      exact count_append_new w.store ns sa (by rw [hname]; exact habsent)

set_option maxRecDepth 100000 in
/-- Witness of the amended C3: the ironic provisioner behind the client
that answers every Create with a conflict, and two racing callers on the
empty model store. -/
theorem C3_conflict_is_returned_witness :
    ((ironic.run conflictEnv sampleNamespace emptyWorld).2 =
        Outcome.returned (some alreadyExistsErr) ∧
      (issued emptyWorld (ironic.run conflictEnv sampleNamespace emptyWorld).1).countP
        Request.isCreate = 1 ∧
      (ironic.run conflictEnv sampleNamespace emptyWorld).1.store = []) ∧
    ∃ sa sb : Secret,
      (race ironic.prepare sampleEnv sampleNamespace emptyWorld).retA =
        Outcome.returned none ∧
      (race ironic.prepare sampleEnv sampleNamespace emptyWorld).retB =
        Outcome.returned (some alreadyExistsErr) ∧
      issued emptyWorld (race ironic.prepare sampleEnv sampleNamespace emptyWorld).world =
        [Request.Get sampleNamespace ironicSecretName,
          Request.Get sampleNamespace ironicSecretName,
          Request.Create sampleNamespace sa, Request.Create sampleNamespace sb] ∧
      (race ironic.prepare sampleEnv sampleNamespace emptyWorld).world.store =
        [(sampleNamespace, sa)] :=
  have h := C3_conflict_is_returned ironic ironic_mem
  ⟨h.1 conflictEnv sampleNamespace emptyWorld notFoundErr alreadyExistsErr rfl rfl
      (fun _ _ => ⟨_, rfl, Nat.mod_lt _ (by decide)⟩)
      (Or.inr (fun _ => ⟨sampleHash, rfl, by decide⟩)) (fun _ => rfl) rfl,
   (h.2 sampleRandInt sampleBcrypt sampleNamespace emptyWorld rfl
      (fun _ _ => ⟨_, rfl, Nat.mod_lt _ (by decide)⟩)
      (Or.inr (fun _ _ => ⟨sampleHash, rfl, by decide⟩))).elim
    (fun sa hsa => hsa.elim (fun sb hsb =>
      ⟨sa, sb, hsb.2.2.1, hsb.2.2.2.1, hsb.2.2.2.2.2.1, hsb.2.2.2.2.2.2.1⟩))⟩

/-- C4. Idempotence over the model store, for each of the three
provisioners: on a store in which the secret's name is absent, for all
random and bcrypt outcomes with which the first call generates its password
(and its hash), two calls in sequence both return nil; the first sends a Get
and one Create, the second only a Get and draws nothing, so exactly one
Create is sent in total; the store after the second call is the store after
the first, which is the initial store with the first call's record added,
the only record under that name. -/
theorem C4_second_call_is_noop (p : Provisioner MapStore) (hp : p ∈ provisioners)
    (randInt : Nat → Nat → Except Err Nat) (bcrypt : Nat → Bytes → Nat → Except Err Bytes)
    (ns : Bytes) (w : World MapStore)
    (habsent : w.store.lookup ns p.name = none)
    (hrand : ∀ j, j < 16 → ∃ c : Nat, randInt (w.draws + j) 62 = Except.ok c ∧ c < 62)
    (hb : p = mariadb ∨
      ∀ P : Bytes, ∃ h : Bytes, bcrypt w.hashes P 5 = Except.ok h ∧ 2 < h.length) :
    ∃ secret : Secret,
      (p.run (modelEnv randInt bcrypt) ns w).2 = Outcome.returned none ∧
      (p.run (modelEnv randInt bcrypt) ns (p.run (modelEnv randInt bcrypt) ns w).1).2 =
        Outcome.returned none ∧
      issued w (p.run (modelEnv randInt bcrypt) ns w).1 =
        [Request.Get ns p.name, Request.Create ns secret] ∧
      issued (p.run (modelEnv randInt bcrypt) ns w).1
          (p.run (modelEnv randInt bcrypt) ns (p.run (modelEnv randInt bcrypt) ns w).1).1 =
        [Request.Get ns p.name] ∧
      (issued w
          (p.run (modelEnv randInt bcrypt) ns
            (p.run (modelEnv randInt bcrypt) ns w).1).1).countP Request.isCreate = 1 ∧
      (p.run (modelEnv randInt bcrypt) ns (p.run (modelEnv randInt bcrypt) ns w).1).1.draws =
        (p.run (modelEnv randInt bcrypt) ns w).1.draws ∧
      (p.run (modelEnv randInt bcrypt) ns w).1.store = w.store ++ [(ns, secret)] ∧
      (p.run (modelEnv randInt bcrypt) ns (p.run (modelEnv randInt bcrypt) ns w).1).1.store =
        (p.run (modelEnv randInt bcrypt) ns w).1.store ∧
      (p.run (modelEnv randInt bcrypt) ns
          (p.run (modelEnv randInt bcrypt) ns w).1).1.store.lookup ns p.name = some secret ∧
      (p.run (modelEnv randInt bcrypt) ns
          (p.run (modelEnv randInt bcrypt) ns w).1).1.store.count ns p.name = 1 := by
  obtain ⟨secret, hashes, hname, _, _, hfirst⟩ :=
    model_first_run p hp randInt bcrypt ns w habsent hrand hb
  have hlook : (w.store ++ [(ns, secret)]).lookup ns p.name = some secret := by
    rw [← hname]
    exact lookup_append_new w.store ns secret (by rw [hname]; exact habsent)
  have hcount : (w.store ++ [(ns, secret)]).count ns p.name = 1 := by
    rw [← hname]
    exact count_append_new w.store ns secret (by rw [hname]; exact habsent)
  rw [hfirst]
  have hget : (modelEnv randInt bcrypt).client.Get (w.store ++ [(ns, secret)]) ns p.name =
      Except.ok secret := mapClient_get_present _ ns p.name secret hlook
  have hsecond := run_early p hp (modelEnv randInt bcrypt) ns
    { store := w.store ++ [(ns, secret)], draws := w.draws + 16, hashes := hashes,
      log := w.log ++ [Request.Get ns p.name, Request.Create ns secret] }
    (by rw [hget]; rfl)
  rw [hget] at hsecond
  dsimp only
  rw [hsecond]
  refine ⟨secret, rfl, rfl, issued_of_log _ _ _ rfl, issued_of_log _ _ _ rfl, ?_, rfl, rfl, rfl,
    hlook, hcount⟩
  have hi : issued w (afterGet
      { store := w.store ++ [(ns, secret)], draws := w.draws + 16, hashes := hashes,
        log := w.log ++ [Request.Get ns p.name, Request.Create ns secret] } ns p.name) =
      [Request.Get ns p.name, Request.Create ns secret, Request.Get ns p.name] := by
    apply issued_of_log
    simp [afterGet]
  rw [hi]
  simp [List.countP_cons, Request.isCreate]

/-- Witness of C4: the ironic provisioner twice on an empty store with the
sample collaborators. -/
theorem C4_second_call_is_noop_witness :
    emptyWorld.store.lookup sampleNamespace (ironic : Provisioner MapStore).name = none ∧
    ∃ secret : Secret,
      (ironic.run sampleEnv sampleNamespace emptyWorld).2 = Outcome.returned none ∧
      (ironic.run sampleEnv sampleNamespace
        (ironic.run sampleEnv sampleNamespace emptyWorld).1).2 = Outcome.returned none ∧
      (ironic.run sampleEnv sampleNamespace
          (ironic.run sampleEnv sampleNamespace emptyWorld).1).1.store =
        (ironic.run sampleEnv sampleNamespace emptyWorld).1.store ∧
      (ironic.run sampleEnv sampleNamespace emptyWorld).1.store =
        [(sampleNamespace, secret)] :=
  ⟨rfl,
   (C4_second_call_is_noop ironic ironic_mem sampleRandInt sampleBcrypt sampleNamespace
      emptyWorld rfl (fun _ _ => ⟨_, rfl, Nat.mod_lt _ (by decide)⟩)
      (Or.inr (fun _ => ⟨sampleHash, rfl, by decide⟩))).elim
    (fun secret h => ⟨secret, h.1, h.2.1, h.2.2.2.2.2.2.2.1, h.2.2.2.2.2.2.1⟩)⟩

/-- C5. In `createIronicSecret`, for any username U, any generated password
P and every bcrypt output of the cost-5 form `$2`, one version byte, `$05$`
and the rest: the `htpasswd` field of the record submitted to Create is U, a
colon and the hash with `y` at byte index 2; that hash begins with
`$2y$05$`, whatever the version byte was, so neither with `$2a$` nor with
`$2b$`, and keeps the rest. -/
theorem C5_htpasswd_version_marker {σ : Type} (env : Env σ)
    (ns name username configSection : Bytes) (w w2 : World σ) (e : Err)
    (P h rest : Bytes) (v : UInt8)
    (hget : env.client.Get w.store ns name = Except.error e)
    (he : e.reason = Reason.NotFound)
    (hgen : generateRandomPassword env (afterGet w ns name) =
      (w2, Outcome.returned (P, none)))
    (hb : env.bcrypt w2.hashes P 5 = Except.ok h)
    (hform : h = lit "$2" ++ [v] ++ lit "$05$" ++ rest) :
    ∃ (secret : Secret) (h1 : Bytes),
      issued w (createIronicSecret env ns name username configSection w).1 =
        [Request.Get ns name, Request.Create ns secret] ∧
      secret.field (lit "htpasswd") = some (username ++ lit ":" ++ h1) ∧
      h1 = lit "$2y$05$" ++ rest ∧
      h1.take 7 = lit "$2y$05$" ∧
      h1[2]? = some 'y'.toUInt8 ∧
      h1.take 4 ≠ lit "$2a$" ∧ h1.take 4 ≠ lit "$2b$" := by
  have hnf := isNotFound_of_get env w.store ns name e hget he
  have hlen : 2 < h.length := by
    rw [hform]
    simp only [List.length_append]
    have : (lit "$2").length = 2 := by decide
    rw [this]
    simp only [List.length_singleton]
    omega
  have hrun := createIronic_submit env ns name username configSection w w2 P h hnf hgen hb hlen
  have hset : h.set 2 'y'.toUInt8 = lit "$2y$05$" ++ rest := by
    rw [hform]; exact set_marker_of_form v rest
  have h7 : lit "$2y$05$" = [36, 50, 'y'.toUInt8, 36, 48, 53, 36] := by decide
  refine ⟨ironicRecord ns name username configSection P (h.set 2 'y'.toUInt8),
    h.set 2 'y'.toUInt8, ?_, ironicRecord_htpasswd _ _ _ _ _ _, hset, ?_, ?_, ?_, ?_⟩
  · apply issued_of_log
    rw [hrun]
  · rw [hset, h7]; rfl
  · rw [hset, h7]; rfl
  · rw [hset, h7]
    have : lit "$2a$" = [36, 50, 97, 36] := by decide
    rw [this]
    have ht : List.take 4 ([36, 50, 'y'.toUInt8, 36, 48, 53, 36] ++ rest) =
        [36, 50, 'y'.toUInt8, 36] := rfl
    rw [ht]
    decide
  · rw [hset, h7]
    have : lit "$2b$" = [36, 50, 98, 36] := by decide
    rw [this]
    have ht : List.take 4 ([36, 50, 'y'.toUInt8, 36, 48, 53, 36] ++ rest) =
        [36, 50, 'y'.toUInt8, 36] := rfl
    rw [ht]
    decide

/-- Witness of C5: the sample collaborators, whose bcrypt answers with a
hash of version byte `a`. -/
theorem C5_htpasswd_version_marker_witness :
    sampleHash = lit "$2" ++ ['a'.toUInt8] ++ lit "$05$" ++ sampleHashRest ∧
    ∃ (secret : Secret) (h1 : Bytes),
      issued emptyWorld (createIronicSecret sampleEnv sampleNamespace ironicSecretName
        ironicUsername (lit "ironic") emptyWorld).1 =
        [Request.Get sampleNamespace ironicSecretName,
          Request.Create sampleNamespace secret] ∧
      secret.field (lit "htpasswd") = some (ironicUsername ++ lit ":" ++ h1) ∧
      h1 = lit "$2y$05$" ++ sampleHashRest ∧
      h1.take 7 = lit "$2y$05$" ∧
      h1[2]? = some 'y'.toUInt8 ∧
      h1.take 4 ≠ lit "$2a$" ∧ h1.take 4 ≠ lit "$2b$" :=
  ⟨by decide,
   C5_htpasswd_version_marker sampleEnv sampleNamespace ironicSecretName ironicUsername
     (lit "ironic") emptyWorld _ notFoundErr samplePassword sampleHash sampleHashRest
     'a'.toUInt8 rfl rfl sample_generate rfl (by decide)⟩

/-- C6. For every generated password P: the `auth-config` field of the
record that `CreateIronicPasswordSecret` submits is exactly
`[ironic]`, `auth_type = http_basic`, `username = ironic-user`,
`password = P`, each line ended by a newline and nothing else, and the one
`CreateInspectorPasswordSecret` submits is the same with `[inspector]` and
`inspector-user`. -/
theorem C6_auth_config_block {σ : Type} (env : Env σ) (ns : Bytes) (w : World σ) :
    (∀ (e : Err) (w2 : World σ) (P h : Bytes),
      env.client.Get w.store ns ironicSecretName = Except.error e →
      e.reason = Reason.NotFound →
      generateRandomPassword env (afterGet w ns ironicSecretName) =
        (w2, Outcome.returned (P, none)) →
      env.bcrypt w2.hashes P 5 = Except.ok h → 2 < h.length →
      ∃ secret : Secret,
        issued w (CreateIronicPasswordSecret env ns w).1 =
          [Request.Get ns ironicSecretName, Request.Create ns secret] ∧
        secret.field (lit "auth-config") =
          some (lit "[ironic]\nauth_type = http_basic\nusername = ironic-user\npassword = " ++
            P ++ lit "\n")) ∧
    (∀ (e : Err) (w2 : World σ) (P h : Bytes),
      env.client.Get w.store ns inspectorSecretName = Except.error e →
      e.reason = Reason.NotFound →
      generateRandomPassword env (afterGet w ns inspectorSecretName) =
        (w2, Outcome.returned (P, none)) →
      env.bcrypt w2.hashes P 5 = Except.ok h → 2 < h.length →
      ∃ secret : Secret,
        issued w (CreateInspectorPasswordSecret env ns w).1 =
          [Request.Get ns inspectorSecretName, Request.Create ns secret] ∧
        secret.field (lit "auth-config") =
          some (lit
            "[inspector]\nauth_type = http_basic\nusername = inspector-user\npassword = " ++
            P ++ lit "\n")) := by
  constructor
  · intro e w2 P h hget he hgen hb hlen
    have hnf := isNotFound_of_get env w.store ns ironicSecretName e hget he
    have hrun := createIronic_submit env ns ironicSecretName ironicUsername (lit "ironic")
      w w2 P h hnf hgen hb hlen
    refine ⟨ironicRecord ns ironicSecretName ironicUsername (lit "ironic") P
      (h.set 2 'y'.toUInt8), ?_, ?_⟩
    · apply issued_of_log
      unfold CreateIronicPasswordSecret
      rw [hrun]
    · rw [ironicRecord_authConfig, authConfig_ironic]
  · intro e w2 P h hget he hgen hb hlen
    have hnf := isNotFound_of_get env w.store ns inspectorSecretName e hget he
    have hrun := createIronic_submit env ns inspectorSecretName inspectorUsername
      (lit "inspector") w w2 P h hnf hgen hb hlen
    refine ⟨ironicRecord ns inspectorSecretName inspectorUsername (lit "inspector") P
      (h.set 2 'y'.toUInt8), ?_, ?_⟩
    · apply issued_of_log
      unfold CreateInspectorPasswordSecret
      rw [hrun]
    · rw [ironicRecord_authConfig, authConfig_inspector]

/-- Witness of C6: both provisioners on an empty store with the sample
collaborators, whose generated password is `AHOVcjqx4BIPWdkr`. -/
theorem C6_auth_config_block_witness :
    (∃ secret : Secret,
      issued emptyWorld (CreateIronicPasswordSecret sampleEnv sampleNamespace emptyWorld).1 =
        [Request.Get sampleNamespace ironicSecretName,
          Request.Create sampleNamespace secret] ∧
      secret.field (lit "auth-config") =
        some (lit "[ironic]\nauth_type = http_basic\nusername = ironic-user\npassword = " ++
          samplePassword ++ lit "\n")) ∧
    (∃ secret : Secret,
      issued emptyWorld (CreateInspectorPasswordSecret sampleEnv sampleNamespace emptyWorld).1 =
        [Request.Get sampleNamespace inspectorSecretName,
          Request.Create sampleNamespace secret] ∧
      secret.field (lit "auth-config") =
        some (lit
          "[inspector]\nauth_type = http_basic\nusername = inspector-user\npassword = " ++
          samplePassword ++ lit "\n")) :=
  have h := C6_auth_config_block sampleEnv sampleNamespace emptyWorld
  ⟨h.1 notFoundErr _ samplePassword sampleHash rfl rfl sample_generate rfl (by decide),
   h.2 notFoundErr _ samplePassword sampleHash rfl rfl sample_generate_inspector rfl
     (by decide)⟩

/-- C7. For every sequence of 16 successful draws, each an index below 62:
`generateRandomPassword` returns, without error and without panic, a string
of exactly 16 bytes, the encoding of 16 runes; the i-th rune is the table
entry at the i-th drawn index and the i-th byte is its ASCII code; every
rune is one of A-Z, a-z, 0-9 and every byte is below 128.  Exactly 16 draws
are consumed. -/
theorem C7_password_shape {σ : Type} (env : Env σ) (w : World σ) (d : Nat → Nat)
    (hd : ∀ j, j < 16 → env.randInt (w.draws + j) 62 = Except.ok (d j) ∧ d j < 62) :
    ∃ (s : Bytes) (buf : List Char),
      generateRandomPassword env w =
        ({ w with draws := w.draws + 16 }, Outcome.returned (s, none)) ∧
      s = runesToString buf ∧
      s.length = 16 ∧ buf.length = 16 ∧
      (∀ i, i < 16 → buf[i]? = chars[d i]? ∧ s[i]? = (chars[d i]?).map Char.toUInt8) ∧
      (∀ c ∈ buf, isAlphabetRune c = true) ∧
      (∀ b ∈ s, isAlphabetByte b = true ∧ b < 128) := by
  obtain ⟨s, buf, h1, h2, _, h4, h5, h6, h7, h8⟩ := generateRandomPassword_spec env w d hd
  exact ⟨s, buf, h1, h2, h4, h5, h6, h7, h8⟩

/-- Witness of C7: the sample random source, whose k-th draw is
`7 k mod 62`. -/
theorem C7_password_shape_witness :
    (∀ j, j < 16 → sampleEnv.randInt (emptyWorld.draws + j) 62 =
        Except.ok ((0 + j) * 7 % 62) ∧ (0 + j) * 7 % 62 < 62) ∧
    ∃ (s : Bytes) (buf : List Char),
      generateRandomPassword sampleEnv emptyWorld =
        ({ emptyWorld with draws := emptyWorld.draws + 16 }, Outcome.returned (s, none)) ∧
      s = runesToString buf ∧
      s.length = 16 ∧ buf.length = 16 ∧
      (∀ i, i < 16 → buf[i]? = chars[(0 + i) * 7 % 62]? ∧
        s[i]? = (chars[(0 + i) * 7 % 62]?).map Char.toUInt8) ∧
      (∀ c ∈ buf, isAlphabetRune c = true) ∧
      (∀ b ∈ s, isAlphabetByte b = true ∧ b < 128) :=
  ⟨fun _ _ => ⟨rfl, Nat.mod_lt _ (by decide)⟩,
   C7_password_shape sampleEnv emptyWorld (fun j => (0 + j) * 7 % 62)
     (fun _ _ => ⟨rfl, Nat.mod_lt _ (by decide)⟩)⟩

/-- C8. The table of `generateRandomPassword` has exactly 62 entries, they
are pairwise distinct and are exactly the runes A-Z, a-z, 0-9; every symbol
of the alphabet sits at exactly one index below 62, so an index uniform on
the 62 indices yields each symbol with probability exactly 1/62; and the
generator uses the drawn index as it is: the symbol at a position is a
given symbol exactly when the draw of that position is that symbol's
index. -/
theorem C8_each_symbol_one_in_62 (σ : Type) :
    chars.length = 62 ∧ chars.Nodup ∧
    (∀ c : Char, c ∈ chars ↔ isAlphabetRune c = true) ∧
    (∀ c : Char, isAlphabetRune c = true → ∃! k : Nat, k < 62 ∧ chars[k]? = some c) ∧
    (∀ c : Char, isAlphabetRune c = true →
      (PMF.map (fun k : Fin 62 => chars[k.val]?) (PMF.uniformOfFintype (Fin 62))) (some c) =
        (62 : ENNReal)⁻¹) ∧
    (∀ (env : Env σ) (w : World σ) (d : Nat → Nat),
      (∀ j, j < 16 → env.randInt (w.draws + j) 62 = Except.ok (d j) ∧ d j < 62) →
      ∃ s : Bytes,
        generateRandomPassword env w =
          ({ w with draws := w.draws + 16 }, Outcome.returned (s, none)) ∧
        ∀ (i : Nat) (c : Char), i < 16 → isAlphabetRune c = true →
          (s[i]? = some c.toUInt8 ↔ chars[d i]? = some c)) := by
  refine ⟨chars_length, chars_nodup, mem_chars_iff, chars_unique_index, chars_uniform, ?_⟩
  intro env w d hd
  obtain ⟨s, buf, h1, _, _, _, _, h6, _, _⟩ := generateRandomPassword_spec env w d hd
  refine ⟨s, h1, ?_⟩
  intro i c hi hc
  rw [(h6 i hi).2]
  constructor
  · intro h
    obtain ⟨r, hr, hrc⟩ := Option.map_eq_some'.mp h
    have hrm : r ∈ chars := List.getElem?_mem hr
    have hcm : c ∈ chars := mem_chars_of_isAlphabetRune c hc
    rw [hr, List.inj_on_of_nodup_map chars_bytes_nodup hrm hcm hrc]
  · intro h
    rw [h]
    rfl

/-- Witness of C8: the symbol `A` and the sample random source, whose first
draw is index 0. -/
theorem C8_each_symbol_one_in_62_witness :
    isAlphabetRune 'A' = true ∧
    (∃! k : Nat, k < 62 ∧ chars[k]? = some 'A') ∧
    (PMF.map (fun k : Fin 62 => chars[k.val]?) (PMF.uniformOfFintype (Fin 62))) (some 'A') =
      (62 : ENNReal)⁻¹ ∧
    ∃ s : Bytes,
      generateRandomPassword sampleEnv emptyWorld =
        ({ emptyWorld with draws := emptyWorld.draws + 16 }, Outcome.returned (s, none)) ∧
      (s[0]? = some 'A'.toUInt8 ↔ chars[(0 + 0) * 7 % 62]? = some 'A') :=
  have h := C8_each_symbol_one_in_62 MapStore
  have hA : isAlphabetRune 'A' = true := by decide
  have hs := h.2.2.2.2.2 sampleEnv emptyWorld (fun j => (0 + j) * 7 % 62)
    (fun _ _ => ⟨rfl, Nat.mod_lt _ (by decide)⟩)
  ⟨hA, h.2.2.2.1 'A' hA, h.2.2.2.2.1 'A' hA,
    hs.elim (fun s hs1 => ⟨s, hs1.1, hs1.2 0 'A' (by decide) hA⟩)⟩

/-- C9. No partial writes, for each of the three provisioners.  Every
invocation sends, after its Get, at most one Create and no Update, and a
Create it sends carries all the keys of its kind at once: exactly
`password` for the mariadb secret, exactly `username`, `password`,
`htpasswd`, `auth-config` for the ironic and inspector secrets.  If the
random source fails on one of the 16 draws, `generateRandomPassword` returns
the empty string and that error, and the provisioner returns that same error
and sends no Create; if bcrypt fails, the ironic and inspector provisioners
return that same error and send no Create. -/
theorem C9_all_fields_or_nothing {σ : Type} (p : Provisioner σ) (hp : p ∈ provisioners)
    (env : Env σ) (ns : Bytes) (w : World σ) :
    ((issued w (p.run env ns w).1).countP Request.isCreate ≤ 1 ∧
      (∀ q ∈ issued w (p.run env ns w).1, q.isUpdate = false) ∧
      (∀ (ns1 : Bytes) (secret : Secret),
        Request.Create ns1 secret ∈ issued w (p.run env ns w).1 → secret.keys = p.keys) ∧
      (mariadb : Provisioner σ).keys = [lit "password"] ∧
      (ironic : Provisioner σ).keys =
        [lit "username", lit "password", lit "htpasswd", lit "auth-config"] ∧
      (inspector : Provisioner σ).keys =
        [lit "username", lit "password", lit "htpasswd", lit "auth-config"]) ∧
    (∀ (e0 e : Err) (k : Nat) (d : Nat → Nat),
      env.client.Get w.store ns p.name = Except.error e0 → e0.reason = Reason.NotFound →
      k < 16 →
      (∀ j, j < k → env.randInt (w.draws + j) 62 = Except.ok (d j) ∧ d j < 62) →
      env.randInt (w.draws + k) 62 = Except.error e →
      (generateRandomPassword env (afterGet w ns p.name)).2 =
          Outcome.returned ([], some e) ∧
        (p.run env ns w).2 = Outcome.returned (some e) ∧
        issued w (p.run env ns w).1 = [Request.Get ns p.name] ∧
        (p.run env ns w).1.store = w.store) ∧
    (∀ (e0 e : Err) (w2 : World σ) (P : Bytes),
      p = ironic ∨ p = inspector →
      env.client.Get w.store ns p.name = Except.error e0 → e0.reason = Reason.NotFound →
      generateRandomPassword env (afterGet w ns p.name) =
        (w2, Outcome.returned (P, none)) →
      env.bcrypt w2.hashes P 5 = Except.error e →
      (p.run env ns w).2 = Outcome.returned (some e) ∧
        issued w (p.run env ns w).1 = [Request.Get ns p.name] ∧
        (p.run env ns w).1.store = w.store) := by
  refine ⟨⟨?_, ?_, ?_, rfl, rfl, rfl⟩, ?_, ?_⟩
  · rcases run_issued p hp env ns w with h | ⟨secret, h, _⟩
    · rw [h]; simp [List.countP_cons, Request.isCreate]
    · rw [h]; simp [List.countP_cons, Request.isCreate]
  · intro q hq
    rcases run_issued p hp env ns w with h | ⟨secret, h, _⟩
    · rw [h, List.mem_singleton] at hq
      rw [hq]; rfl
    · rw [h] at hq
      simp only [List.mem_cons, List.mem_singleton, List.not_mem_nil, or_false] at hq
      rcases hq with rfl | rfl <;> rfl
  · intro ns1 secret hmem
    rcases run_issued p hp env ns w with h | ⟨s0, h, hk⟩
    · rw [h, List.mem_singleton] at hmem
      exact absurd hmem (by simp)
    · rw [h] at hmem
      simp only [List.mem_cons, List.mem_singleton, List.not_mem_nil, or_false] at hmem
      rcases hmem with hmem | hmem
      · exact absurd hmem (by simp)
      · injection hmem with _ h2
        rw [h2]; exact hk
  · intro e0 e k d hget he0 hk hd he
    have hnf := isNotFound_of_get env w.store ns p.name e0 hget he0
    have hgen := generateRandomPassword_err env (afterGet w ns p.name) d e k hk hd he
    have hrun := run_genErr p hp env ns w _ [] e hnf hgen
    rw [hrun, hgen]
    exact ⟨rfl, rfl, issued_of_log _ _ _ rfl, rfl⟩
  · intro e0 e w2 P hp2 hget he0 hgen hb
    have hnf := isNotFound_of_get env w.store ns p.name e0 hget he0
    have hf := generateRandomPassword_frame env (afterGet w ns p.name)
    rw [hgen] at hf
    rw [run_bcryptErr p hp2 env ns w w2 P e hnf hgen hb]
    exact ⟨rfl, issued_of_log _ _ _ hf.2.2, hf.1⟩

/-- Witness of C9: the ironic provisioner on an empty store, once with a
random source that fails on its fourth draw and once with a bcrypt that
fails. -/
theorem C9_all_fields_or_nothing_witness :
    ((generateRandomPassword failingRandEnv
          (afterGet emptyWorld sampleNamespace ironicSecretName)).2 =
        Outcome.returned ([], some entropyErr) ∧
      (ironic.run failingRandEnv sampleNamespace emptyWorld).2 =
        Outcome.returned (some entropyErr) ∧
      issued emptyWorld (ironic.run failingRandEnv sampleNamespace emptyWorld).1 =
        [Request.Get sampleNamespace ironicSecretName] ∧
      (ironic.run failingRandEnv sampleNamespace emptyWorld).1.store = []) ∧
    ((ironic.run failingBcryptEnv sampleNamespace emptyWorld).2 =
        Outcome.returned (some hashErr) ∧
      issued emptyWorld (ironic.run failingBcryptEnv sampleNamespace emptyWorld).1 =
        [Request.Get sampleNamespace ironicSecretName] ∧
      (ironic.run failingBcryptEnv sampleNamespace emptyWorld).1.store = []) ∧
    (issued emptyWorld (ironic.run sampleEnv sampleNamespace emptyWorld).1).countP
      Request.isCreate ≤ 1 :=
  ⟨(C9_all_fields_or_nothing ironic ironic_mem failingRandEnv sampleNamespace emptyWorld).2.1
      notFoundErr entropyErr 3 (fun j => (0 + j) * 7 % 62) rfl rfl (by decide)
      (fun j hj => by
        have h3 : j = 0 ∨ j = 1 ∨ j = 2 := by omega
        rcases h3 with rfl | rfl | rfl <;> exact ⟨rfl, by decide⟩)
      rfl,
   (C9_all_fields_or_nothing ironic ironic_mem failingBcryptEnv sampleNamespace emptyWorld).2.2
      notFoundErr hashErr _ samplePassword (Or.inl rfl) rfl rfl sample_generate rfl,
   (C9_all_fields_or_nothing ironic ironic_mem sampleEnv sampleNamespace emptyWorld).1.1⟩

/-- C10. In `createIronicSecret`, for every invocation that reaches Create:
there is a single password P, the outcome of the one call of
`generateRandomPassword` (the 16 draws it makes are all the draws of the
invocation), such that the `password` field is P, the `auth-config` field
ends with the line `password = P`, and the `htpasswd` field is the username,
a colon and a hash that has the length of the bcrypt output computed from P
at cost 5 and agrees with it at every byte index other than 2, where it
holds `y`. -/
theorem C10_fields_share_password {σ : Type} (env : Env σ)
    (ns name username configSection : Bytes) (w : World σ) (ns1 : Bytes) (secret : Secret)
    (hreach : Request.Create ns1 secret ∈
      issued w (createIronicSecret env ns name username configSection w).1) :
    ∃ (w2 : World σ) (P h h1 : Bytes),
      generateRandomPassword env (afterGet w ns name) = (w2, Outcome.returned (P, none)) ∧
      (createIronicSecret env ns name username configSection w).1.draws = w2.draws ∧
      env.bcrypt w2.hashes P 5 = Except.ok h ∧
      secret.field (lit "password") = some P ∧
      secret.field (lit "auth-config") =
        some (lit "[" ++ configSection ++ lit "]\nauth_type = http_basic\nusername = " ++
          username ++ lit "\npassword = " ++ P ++ lit "\n") ∧
      secret.field (lit "htpasswd") = some (username ++ lit ":" ++ h1) ∧
      h1.length = h.length ∧
      (∀ i : Nat, i ≠ 2 → h1[i]? = h[i]?) ∧
      h1[2]? = some 'y'.toUInt8 := by
  obtain ⟨_, hst⟩ := createIronic_reaches_create env ns name username configSection w ns1
    secret hreach
  obtain ⟨w2, P, h, hnf, hgen, hb, hlen, _, hrec⟩ :=
    ironicPrepare_submit env ns name username configSection w secret hst
  refine ⟨w2, P, h, h.set 2 'y'.toUInt8, hgen, ?_, hb, ?_, ?_, ?_, set_two_length _ _,
    set_two_other _ _, set_two_marker _ _ hlen⟩
  · rw [createIronic_submit env ns name username configSection w w2 P h hnf hgen hb hlen]
  · rw [hrec]; exact ironicRecord_password _ _ _ _ _ _
  · rw [hrec]; exact ironicRecord_authConfig _ _ _ _ _ _
  · rw [hrec]; exact ironicRecord_htpasswd _ _ _ _ _ _

/-- Witness of C10: the first run of the ironic provisioner with the sample
collaborators. -/
theorem C10_fields_share_password_witness :
    Request.Create sampleNamespace sampleIronicSecret ∈
      issued emptyWorld (createIronicSecret sampleEnv sampleNamespace ironicSecretName
        ironicUsername (lit "ironic") emptyWorld).1 ∧
    ∃ (w2 : World MapStore) (P h h1 : Bytes),
      generateRandomPassword sampleEnv (afterGet emptyWorld sampleNamespace ironicSecretName) =
        (w2, Outcome.returned (P, none)) ∧
      (createIronicSecret sampleEnv sampleNamespace ironicSecretName ironicUsername
        (lit "ironic") emptyWorld).1.draws = w2.draws ∧
      sampleEnv.bcrypt w2.hashes P 5 = Except.ok h ∧
      sampleIronicSecret.field (lit "password") = some P ∧
      sampleIronicSecret.field (lit "auth-config") =
        some (lit "[" ++ lit "ironic" ++ lit "]\nauth_type = http_basic\nusername = " ++
          ironicUsername ++ lit "\npassword = " ++ P ++ lit "\n") ∧
      sampleIronicSecret.field (lit "htpasswd") = some (ironicUsername ++ lit ":" ++ h1) ∧
      h1.length = h.length ∧
      (∀ i : Nat, i ≠ 2 → h1[i]? = h[i]?) ∧
      h1[2]? = some 'y'.toUInt8 :=
  have hmem : Request.Create sampleNamespace sampleIronicSecret ∈
      issued emptyWorld (createIronicSecret sampleEnv sampleNamespace ironicSecretName
        ironicUsername (lit "ironic") emptyWorld).1 := by
    rw [sample_ironic_run]
    exact List.mem_cons_of_mem _ (List.mem_cons_self _ _)
  ⟨hmem, C10_fields_share_password sampleEnv sampleNamespace ironicSecretName ironicUsername
    (lit "ironic") emptyWorld sampleNamespace sampleIronicSecret hmem⟩

end Provisioning
